import Mathlib

set_option maxRecDepth 2000

/-!
Verification of the schema-driven conversion layer and query builder of a
Redis object-mapping library.

JS strings are modelled as `List Char`.  JS numbers are modelled as exact
decimal rationals (`ℚ`): every finite IEEE double is such a rational, and
JS `toString` prints the shortest decimal form, which on this model is the
exact decimal expansion with no trailing zeros.  `NaN` results are modelled
as `none`/`Except.error` as noted at each definition.
-/

namespace RedisOm

/-- One decimal digit rendered as a character. -/
def digitChar (d : ℕ) : Char := Char.ofNat (48 + d)

/-- Numeric value of a digit character. -/
def charVal (c : Char) : ℕ := c.toNat - 48

/-- Little-endian base-10 digits, computed with explicit fuel so that the
kernel can evaluate it directly. -/
def digitsGo : ℕ → ℕ → List ℕ
| _, 0 => []
| 0, _ + 1 => []
| fuel + 1, n + 1 => (n + 1) % 10 :: digitsGo fuel ((n + 1) / 10)

/-- Little-endian base-10 digits of a natural number. -/
def natDigits (n : ℕ) : List ℕ := digitsGo n n

theorem digitsGo_eq_digits (fuel : ℕ) : ∀ n, n ≤ fuel → digitsGo fuel n = Nat.digits 10 n := by
  induction fuel with
  | zero =>
    intro n hn
    interval_cases n
    simp [digitsGo]
  | succ fuel ih =>
    intro n hn
    match n with
    | 0 => simp [digitsGo]
    | m + 1 =>
      rw [digitsGo, Nat.digits_def' (by norm_num : 1 < 10) (Nat.succ_pos m)]
      congr 1
      exact ih _ (by omega : (m + 1) / 10 ≤ fuel)

theorem natDigits_eq (n : ℕ) : natDigits n = Nat.digits 10 n :=
  digitsGo_eq_digits n n le_rfl

/-- Decimal digit characters of a natural number, as JS `toString` renders
nonnegative integers. -/
def natToChars (n : ℕ) : List Char :=
  if n = 0 then [digitChar 0] else (natDigits n).reverse.map digitChar

theorem natToChars_ne_nil (n : ℕ) : natToChars n ≠ [] := by
  unfold natToChars
  split
  · simp
  · simp [natDigits_eq, Nat.digits_ne_nil_iff_ne_zero, *]

theorem mem_natToChars (n : ℕ) (c : Char) (hc : c ∈ natToChars n) :
    ∃ d, d < 10 ∧ c = digitChar d := by
  unfold natToChars at hc
  split at hc
  · exact ⟨0, by norm_num, by simpa using hc⟩
  · simp only [List.mem_map, List.mem_reverse] at hc
    obtain ⟨d, hd, rfl⟩ := hc
    rw [natDigits_eq] at hd
    exact ⟨d, Nat.digits_lt_base (by norm_num) hd, rfl⟩

theorem digitChar_props (d : ℕ) (hd : d < 10) :
    (digitChar d).isDigit = true ∧ digitChar d ≠ '-' ∧ digitChar d ≠ '+' ∧
      digitChar d ≠ '.' ∧ digitChar d ≠ ',' ∧ digitChar d ≠ '|' := by
  interval_cases d <;> exact ⟨by decide, by decide, by decide, by decide, by decide, by decide⟩

/-- Folding digit characters onto an accumulator, big-endian. -/
def chVal (a : ℕ) (ds : List Char) : ℕ := ds.foldl (fun x c => x * 10 + charVal c) a

theorem chVal_cons (a : ℕ) (c : Char) (cs : List Char) :
    chVal a (c :: cs) = chVal (a * 10 + charVal c) cs := rfl

theorem chVal_append (a : ℕ) (xs ys : List Char) :
    chVal a (xs ++ ys) = chVal (chVal a xs) ys := by
  simp [chVal, List.foldl_append]

theorem chVal_digits (L : List ℕ) (hL : ∀ d ∈ L, d < 10) (a : ℕ) :
    chVal a (L.reverse.map digitChar) = a * 10 ^ L.length + Nat.ofDigits 10 L := by
  induction L generalizing a with
  | nil => simp [chVal]
  | cons d L ih =>
    have hd : d < 10 := hL d (by simp)
    have hrest : ∀ x ∈ L, x < 10 := fun x hx => hL x (by simp [hx])
    have hcv : charVal (digitChar d) = d := by interval_cases d <;> rfl
    rw [List.reverse_cons, List.map_append, chVal_append, ih hrest]
    simp only [List.map_cons, List.map_nil, chVal, List.foldl_cons, List.foldl_nil,
      Nat.ofDigits_cons, hcv, List.length_cons]
    ring

theorem chVal_natToChars (n : ℕ) (a : ℕ) :
    chVal a (natToChars n) = a * 10 ^ (natToChars n).length + n := by
  unfold natToChars
  split
  · subst n
    simp [chVal, charVal, digitChar]
  · have hlt : ∀ d ∈ natDigits n, d < 10 := by
      rw [natDigits_eq]
      exact fun d hd => Nat.digits_lt_base (by norm_num) hd
    rw [chVal_digits _ hlt]
    rw [natDigits_eq, Nat.ofDigits_digits]
    simp [natDigits_eq]

theorem chVal_replicate_zero (j : ℕ) (a : ℕ) (ha : a = 0) :
    chVal a (List.replicate j (digitChar 0)) = 0 := by
  subst ha
  induction j with
  | zero => rfl
  | succ j ih => simpa [chVal, List.replicate_succ, charVal, digitChar] using ih

/-- Consume leading decimal digits: returns the value read, the number of
digits consumed, and the remaining characters. -/
def parseNatAux : ℕ → ℕ → List Char → ℕ × ℕ × List Char
| acc, cnt, [] => (acc, cnt, [])
| acc, cnt, c :: cs =>
  if c.isDigit then parseNatAux (acc * 10 + charVal c) (cnt + 1) cs
  else (acc, cnt, c :: cs)

/-- Does the character list start with a decimal digit? -/
def headIsDigit : List Char → Bool
| [] => false
| c :: _ => c.isDigit

theorem parseNatAux_stop (acc cnt : ℕ) (s : List Char) (h : headIsDigit s = false) :
    parseNatAux acc cnt s = (acc, cnt, s) := by
  cases s with
  | nil => rfl
  | cons c cs => simp [parseNatAux, headIsDigit] at h ⊢; simp [h]

theorem parseNatAux_digits (ds : List Char) (hds : ∀ c ∈ ds, c.isDigit = true) :
    ∀ acc cnt rest,
      parseNatAux acc cnt (ds ++ rest) = parseNatAux (chVal acc ds) (cnt + ds.length) rest := by
  induction ds with
  | nil => intro acc cnt rest; simp [chVal]
  | cons c cs ih =>
    intro acc cnt rest
    have hc : c.isDigit = true := hds c (by simp)
    have hcs : ∀ x ∈ cs, x.isDigit = true := fun x hx => hds x (by simp [hx])
    simp only [List.cons_append, parseNatAux, hc, if_true, chVal_cons, List.length_cons,
      List.append_eq]
    rw [ih hcs]
    rw [show cnt + (cs.length + 1) = cnt + 1 + cs.length from by omega]

theorem parseNatAux_run (n : ℕ) (rest : List Char) (h : headIsDigit rest = false) :
    parseNatAux 0 0 (natToChars n ++ rest) = (n, (natToChars n).length, rest) := by
  have hds : ∀ c ∈ natToChars n, c.isDigit = true := by
    intro c hc
    obtain ⟨d, hd, rfl⟩ := mem_natToChars n c hc
    exact (digitChar_props d hd).1
  rw [parseNatAux_digits _ hds, parseNatAux_stop _ _ _ h, chVal_natToChars]
  simp

/-- JS whitespace recognizer (the common cases). -/
def isSpaceChar (c : Char) : Bool := c = ' ' || c = '\t' || c = '\n' || c = '\r'

/-- Optional sign at the head of a JS numeric literal. -/
def parseSign : List Char → Bool × List Char
| [] => (false, [])
| c :: cs =>
  if c = '-' then (true, cs)
  else if c = '+' then (false, cs)
  else (false, c :: cs)

/-- Does the character list start with a decimal point? -/
def headIsDot : List Char → Bool
| [] => false
| c :: _ => c == '.'

/-- The unsigned part of JS `Number.parseFloat`: integer digits, then an
optional fraction. `none` models `NaN`. -/
def parseUnsigned (s : List Char) : Option ℚ :=
  match parseNatAux 0 0 s with
  | (intVal, intCnt, rest) =>
    if headIsDot rest then
      match parseNatAux 0 0 rest.tail with
      | (fracVal, fracCnt, _) =>
        if intCnt = 0 ∧ fracCnt = 0 then none
        else some ((intVal : ℚ) + (fracVal : ℚ) / 10 ^ fracCnt)
    else if intCnt = 0 then none else some ((intVal : ℚ))

/-- JS `Number.parseFloat` on plain decimal notation: skips leading
whitespace, reads an optional sign and then the longest numeric prefix;
`none` models `NaN`. Exponent forms, hex and `Infinity` are not modelled. -/
def jsParseFloat (s : List Char) : Option ℚ :=
  match parseSign (s.dropWhile isSpaceChar) with
  | (neg, s2) => (parseUnsigned s2).map (fun q => if neg then -q else q)

/-- JS `Number.parseInt` on decimal input: skips leading whitespace, reads an
optional sign and then the longest digit prefix; `none` models `NaN`. Radix
prefixes are not modelled. -/
def jsParseInt (s : List Char) : Option ℤ :=
  match parseSign (s.dropWhile isSpaceChar) with
  | (neg, s2) =>
    match parseNatAux 0 0 s2 with
    | (v, cnt, _) => if cnt = 0 then none else some (if neg then -(v : ℤ) else (v : ℤ))

/-- JS `toString` on an integral number. -/
def intToChars (t : ℤ) : List Char :=
  if t < 0 then '-' :: natToChars (-t).toNat else natToChars t.toNat

/-- Search bound on the number of decimal places when printing. -/
def decFuel : ℕ := 40

/-- Least `k ≤ decFuel` such that `q * 10 ^ k` is integral (its denominator
divides `10 ^ k`): the number of decimal places needed to print `q` exactly
with no trailing zeros. Every finite JS double admits such a `k`; rationals
outside the model give `none`. Phrased with `Nat` arithmetic so that the
kernel can evaluate it. -/
def decExp (q : ℚ) : Option ℕ :=
  (List.range (decFuel + 1)).find? (fun k => decide (q.den ∣ 10 ^ k))

/-- The fractional digit block: exactly `k` digits, left-padded with zeros. -/
def fracChars (f k : ℕ) : List Char :=
  List.replicate (k - (natToChars f).length) (digitChar 0) ++ natToChars f

/-- Decimal rendering of the nonnegative rational `na / den` with `k`
decimal places, for `den` dividing `10 ^ k`. -/
def posRatToChars (na den k : ℕ) : List Char :=
  if k = 0 then natToChars (na * 10 ^ k / den)
  else
    natToChars (na * 10 ^ k / den / 10 ^ k) ++
      '.' :: fracChars (na * 10 ^ k / den % 10 ^ k) k

/-- JS number printing (`Number.prototype.toString`) on the exact-decimal
rational model: shortest plain decimal form, minus sign for negatives, no
trailing zeros. -/
def numToString (q : ℚ) : List Char :=
  match decExp q with
  | none => []
  | some k =>
    if q.num < 0 then '-' :: posRatToChars q.num.natAbs q.den k
    else posRatToChars q.num.natAbs q.den k

theorem natToChars_shape (n : ℕ) : ∃ d cs, d < 10 ∧ natToChars n = digitChar d :: cs := by
  obtain ⟨c, cs, hcs⟩ := List.exists_cons_of_ne_nil (natToChars_ne_nil n)
  have hc : c ∈ natToChars n := by rw [hcs]; simp
  obtain ⟨d, hd, rfl⟩ := mem_natToChars n c hc
  exact ⟨d, cs, hd, hcs⟩

theorem frontEnd_digit (d : ℕ) (hd : d < 10) (cs : List Char) :
    (digitChar d :: cs).dropWhile isSpaceChar = digitChar d :: cs ∧
      parseSign (digitChar d :: cs) = (false, digitChar d :: cs) := by
  interval_cases d <;> exact ⟨rfl, rfl⟩

theorem natToChars_length_pos (n : ℕ) : 0 < (natToChars n).length :=
  List.length_pos.mpr (natToChars_ne_nil n)

theorem natToChars_length_le (f k : ℕ) (hk : k ≠ 0) (hf : f < 10 ^ k) :
    (natToChars f).length ≤ k := by
  unfold natToChars
  split
  · simpa using Nat.one_le_iff_ne_zero.mpr hk
  · rename_i hf0
    simp only [List.length_map, List.length_reverse, natDigits_eq]
    rw [Nat.digits_len 10 f (by norm_num) hf0]
    have := Nat.log_lt_of_lt_pow hf0 hf
    omega

theorem parse_fracChars (f k : ℕ) (hk : k ≠ 0) (hf : f < 10 ^ k) :
    parseNatAux 0 0 (fracChars f k) = (f, k, []) := by
  have hds : ∀ c ∈ fracChars f k, c.isDigit = true := by
    intro c hc
    unfold fracChars at hc
    rcases List.mem_append.mp hc with h | h
    · rw [List.eq_of_mem_replicate h]; decide
    · obtain ⟨d, hd, rfl⟩ := mem_natToChars f c h
      exact (digitChar_props d hd).1
  have := parseNatAux_digits (fracChars f k) hds 0 0 []
  rw [List.append_nil] at this
  rw [this, parseNatAux_stop _ _ [] rfl]
  unfold fracChars
  rw [chVal_append, chVal_replicate_zero _ _ rfl, chVal_natToChars]
  have hlen : (fracChars f k).length = k := by
    unfold fracChars
    have := natToChars_length_le f k hk hf
    simp only [List.length_append, List.length_replicate]
    omega
  unfold fracChars at hlen
  simp only [List.length_append, List.length_replicate] at hlen
  simp [hlen]

theorem parseUnsigned_posRat (q : ℚ) (k : ℕ) (hq : 0 ≤ q) (hdvd : q.den ∣ 10 ^ k) :
    parseUnsigned (posRatToChars q.num.natAbs q.den k) = some q := by
  have hden0 : q.den ≠ 0 := q.den_nz
  have hnum0 : (0 : ℤ) ≤ q.num := Rat.num_nonneg.mpr hq
  have hdvd2 : q.den ∣ q.num.natAbs * 10 ^ k := Dvd.dvd.mul_left hdvd _
  have hmul : q.num.natAbs * 10 ^ k / q.den * q.den = q.num.natAbs * 10 ^ k :=
    Nat.div_mul_cancel hdvd2
  have hm : ((q.num.natAbs * 10 ^ k / q.den : ℕ) : ℚ) = q * 10 ^ k := by
    have hQden : ((q.den : ℚ)) ≠ 0 := by exact_mod_cast hden0
    have h1 : ((q.num.natAbs * 10 ^ k / q.den : ℕ) : ℚ) * (q.den : ℚ) =
        ((q.num.natAbs : ℕ) : ℚ) * 10 ^ k := by
      exact_mod_cast congrArg (Nat.cast : ℕ → ℚ) hmul
    have h2 : ((q.num.natAbs : ℕ) : ℚ) = ((q.num : ℤ) : ℚ) := by
      rw [Int.cast_natAbs]
      exact_mod_cast abs_of_nonneg hnum0
    have h3 : q * (q.den : ℚ) = ((q.num : ℤ) : ℚ) := Rat.mul_den_eq_num q
    rw [h2, ← h3] at h1
    have h4 : ((q.num.natAbs * 10 ^ k / q.den : ℕ) : ℚ) * (q.den : ℚ) =
        q * 10 ^ k * (q.den : ℚ) := by rw [h1]; ring
    exact mul_right_cancel₀ hQden h4
  by_cases hk : k = 0
  · subst hk
    unfold posRatToChars
    rw [if_pos rfl]
    unfold parseUnsigned
    have hrun := parseNatAux_run (q.num.natAbs * 10 ^ 0 / q.den) [] rfl
    rw [List.append_nil] at hrun
    rw [hrun]
    dsimp only
    have hlen := natToChars_length_pos (q.num.natAbs * 10 ^ 0 / q.den)
    rw [if_neg (by decide : ¬(headIsDot ([] : List Char) = true))]
    rw [if_neg (by omega)]
    congr 1
    rw [hm]
    simp
  · unfold posRatToChars
    rw [if_neg hk]
    unfold parseUnsigned
    rw [parseNatAux_run (q.num.natAbs * 10 ^ k / q.den / 10 ^ k)
      ('.' :: fracChars (q.num.natAbs * 10 ^ k / q.den % 10 ^ k) k) rfl]
    dsimp only
    simp only [headIsDot, List.tail_cons, beq_self_eq_true, if_true]
    rw [parse_fracChars (q.num.natAbs * 10 ^ k / q.den % 10 ^ k) k hk
      (Nat.mod_lt _ (by positivity))]
    dsimp only
    rw [if_neg (by simp [hk])]
    congr 1
    revert hm
    generalize q.num.natAbs * 10 ^ k / q.den = M
    intro hm
    have hsplit : (10 : ℕ) ^ k * (M / 10 ^ k) + M % 10 ^ k = M := Nat.div_add_mod M (10 ^ k)
    have h10 : ((10 : ℚ) ^ k) ≠ 0 := by positivity
    have hcast : ((M : ℚ)) = (10 : ℚ) ^ k * ((M / 10 ^ k : ℕ) : ℚ) + ((M % 10 ^ k : ℕ) : ℚ) := by
      exact_mod_cast hsplit.symm
    have hqM : q = (M : ℚ) / 10 ^ k := by
      rw [eq_div_iff h10, hm]
    rw [hqM, hcast, add_div, mul_div_cancel_left₀ _ h10]

theorem posRatToChars_shape (na den k : ℕ) :
    ∃ d cs, d < 10 ∧ posRatToChars na den k = digitChar d :: cs := by
  unfold posRatToChars
  split
  · exact natToChars_shape _
  · obtain ⟨d, cs, hd, hcs⟩ := natToChars_shape (na * 10 ^ k / den / 10 ^ k)
    exact ⟨d, cs ++ '.' :: fracChars (na * 10 ^ k / den % 10 ^ k) k, hd,
      by rw [hcs]; simp⟩

theorem jsParseFloat_numToString (q : ℚ) (k : ℕ) (h : decExp q = some k) :
    jsParseFloat (numToString q) = some q := by
  have hp := List.find?_some h
  have hdvd : q.den ∣ 10 ^ k := of_decide_eq_true hp
  simp only [numToString, h]
  by_cases hq : q.num < 0
  · rw [if_pos hq]
    have hqneg : q < 0 := Rat.num_neg.mp hq
    unfold jsParseFloat
    have hdw : List.dropWhile isSpaceChar ('-' :: posRatToChars q.num.natAbs q.den k) =
        '-' :: posRatToChars q.num.natAbs q.den k := rfl
    rw [hdw]
    have hps : parseSign ('-' :: posRatToChars q.num.natAbs q.den k) =
        (true, posRatToChars q.num.natAbs q.den k) := rfl
    rw [hps]
    dsimp only
    have hneg := parseUnsigned_posRat (-q) k (by linarith)
      (by rw [Rat.neg_den]; exact hdvd)
    rw [show (-q).num.natAbs = q.num.natAbs by simp, Rat.neg_den] at hneg
    rw [hneg]
    simp
  · rw [if_neg hq]
    unfold jsParseFloat
    have hq' : 0 ≤ q := Rat.num_nonneg.mp (by omega)
    obtain ⟨d, cs, hd, hcs⟩ := posRatToChars_shape q.num.natAbs q.den k
    rw [hcs]
    rw [(frontEnd_digit d hd cs).1, (frontEnd_digit d hd cs).2]
    dsimp only
    rw [← hcs]
    rw [parseUnsigned_posRat q k hq' hdvd]
    simp

theorem jsParseInt_intToChars (t : ℤ) : jsParseInt (intToChars t) = some t := by
  unfold intToChars
  by_cases ht : t < 0
  · rw [if_pos ht]
    unfold jsParseInt
    have hdw : List.dropWhile isSpaceChar ('-' :: natToChars (-t).toNat) =
        '-' :: natToChars (-t).toNat := rfl
    rw [hdw]
    have hps : parseSign ('-' :: natToChars (-t).toNat) = (true, natToChars (-t).toNat) := rfl
    rw [hps]
    dsimp only
    have hrun := parseNatAux_run (-t).toNat [] rfl
    rw [List.append_nil] at hrun
    rw [hrun]
    dsimp only
    have hlen := natToChars_length_pos (-t).toNat
    rw [if_neg (by omega)]
    simp only [if_pos trivial]
    have : (((-t).toNat : ℤ)) = -t := Int.toNat_of_nonneg (by omega)
    simp [this]
  · rw [if_neg ht]
    unfold jsParseInt
    obtain ⟨d, cs, hd, hcs⟩ := natToChars_shape t.toNat
    rw [hcs, (frontEnd_digit d hd cs).1, (frontEnd_digit d hd cs).2]
    dsimp only
    rw [← hcs]
    have hrun := parseNatAux_run t.toNat [] rfl
    rw [List.append_nil] at hrun
    rw [hrun]
    dsimp only
    have hlen := natToChars_length_pos t.toNat
    rw [if_neg (by omega)]
    simp only [Bool.false_eq_true, if_false]
    congr 1
    exact Int.toNat_of_nonneg (by omega)

/-- Split on a single character (helper used to reason about `jsSplit`). -/
def splitOnChar (sep : Char) : List Char → List (List Char)
| [] => [[]]
| c :: cs =>
  if c = sep then [] :: splitOnChar sep cs
  else
    match splitOnChar sep cs with
    | [] => [[c]]
    | p :: ps => (c :: p) :: ps

/-- Split on a nonempty separator, scanning left to right for the leftmost
occurrence, as JS `String.prototype.split` does. -/
def jsSplitNE (sep : List Char) : List Char → List (List Char)
| [] => [[]]
| c :: cs =>
  if sep ≠ [] ∧ sep.isPrefixOf (c :: cs) then
    [] :: jsSplitNE sep (List.drop (sep.length - 1) cs)
  else
    match jsSplitNE sep cs with
    | [] => [[c]]
    | p :: ps => (c :: p) :: ps
termination_by s => s.length
decreasing_by
all_goals simp only [List.length_drop, List.length_cons]
all_goals omega

/-- JS `String.prototype.split` with a string separator: the empty separator
splits into single characters; otherwise leftmost-first scanning. -/
def jsSplit (sep : List Char) (s : List Char) : List (List Char) :=
  if sep = [] then s.map (fun c => [c]) else jsSplitNE sep s

/-- JS `Array.prototype.join`. -/
def joinSep (sep : List Char) : List (List Char) → List Char
| [] => []
| [x] => x
| x :: y :: xs => x ++ sep ++ joinSep sep (y :: xs)

theorem jsSplitNE_single (sc : Char) (s : List Char) :
    jsSplitNE [sc] s = splitOnChar sc s := by
  induction s with
  | nil => simp [jsSplitNE, splitOnChar]
  | cons c cs ih =>
    rw [jsSplitNE, splitOnChar]
    by_cases hc : c = sc
    · subst hc
      rw [if_pos (by simp [List.isPrefixOf]), if_pos rfl]
      simpa using ih
    · rw [if_neg (by simp [List.isPrefixOf]; intro h; exact absurd h.symm hc), if_neg hc, ih]

theorem splitOnChar_no_sep (sc : Char) (x : List Char) (hx : sc ∉ x) :
    splitOnChar sc x = [x] := by
  induction x with
  | nil => rfl
  | cons c cs ih =>
    have hcs : sc ∉ cs := fun h => hx (by simp [h])
    have hc : c ≠ sc := fun h => hx (by simp [h])
    rw [splitOnChar, if_neg hc, ih hcs]

theorem splitOnChar_boundary (sc : Char) (x t : List Char) (hx : sc ∉ x) :
    splitOnChar sc (x ++ sc :: t) = x :: splitOnChar sc t := by
  induction x with
  | nil => simp [splitOnChar]
  | cons c cs ih =>
    have hcs : sc ∉ cs := fun h => hx (by simp [h])
    have hc : c ≠ sc := fun h => hx (by simp [h])
    rw [List.cons_append, splitOnChar, if_neg hc, ih hcs]

theorem splitOnChar_joinSep (sc : Char) (xs : List (List Char)) (hne : xs ≠ [])
    (hsep : ∀ x ∈ xs, sc ∉ x) : splitOnChar sc (joinSep [sc] xs) = xs := by
  induction xs with
  | nil => exact absurd rfl hne
  | cons x xs ih =>
    cases xs with
    | nil => exact splitOnChar_no_sep sc x (hsep x (by simp))
    | cons y ys =>
      rw [joinSep]
      have hx : sc ∉ x := hsep x (by simp)
      have hrest : ∀ z ∈ y :: ys, sc ∉ z := fun z hz => hsep z (by simp [hz])
      rw [show x ++ [sc] ++ joinSep [sc] (y :: ys) = x ++ sc :: joinSep [sc] (y :: ys) by simp]
      rw [splitOnChar_boundary sc x _ hx, ih (by simp) hrest]

theorem jsSplit_joinSep (sc : Char) (xs : List (List Char)) (hne : xs ≠ [])
    (hsep : ∀ x ∈ xs, sc ∉ x) : jsSplit [sc] (joinSep [sc] xs) = xs := by
  rw [jsSplit, if_neg (by simp), jsSplitNE_single]
  exact splitOnChar_joinSep sc xs hne hsep

/-- Substring occurrence test on character lists. -/
def containsSub (needle : List Char) : List Char → Bool
| [] => needle.isEmpty
| c :: t => needle.isPrefixOf (c :: t) || containsSub needle t

/-! ## Point conversion (part_000) -/

/-- `pointToString`: renders a point as the template string
`${longitude},${latitude}`. -/
def pointToString (longitude latitude : ℚ) : List Char :=
  numToString longitude ++ ',' :: numToString latitude

/-- `stringToPoint`: `value.split` on a comma, `map(Number.parseFloat)`, destructured
into longitude and latitude. JS would silently produce `NaN` coordinates on
malformed input; `NaN` is outside the rational model, so that case is
modelled as `none`. -/
def stringToPoint (value : List Char) : Option (ℚ × ℚ) :=
  match (jsSplit [','] value).head?, (jsSplit [','] value)[1]? with
  | some a, some b =>
    match jsParseFloat a, jsParseFloat b with
    | some lo, some la => some (lo, la)
    | _, _ => none
  | _, _ => none

theorem not_mem_natToChars_symbol (n : ℕ) (c : Char)
    (hc : c.isDigit = false) : c ∉ natToChars n := by
  intro hmem
  obtain ⟨d, hd, rfl⟩ := mem_natToChars n c hmem
  rw [(digitChar_props d hd).1] at hc
  simp at hc

theorem comma_not_mem_posRat (na den k : ℕ) : ',' ∉ posRatToChars na den k := by
  unfold posRatToChars
  split
  · exact not_mem_natToChars_symbol _ _ (by decide)
  · intro hmem
    rcases List.mem_append.mp hmem with h | h
    · exact not_mem_natToChars_symbol _ _ (by decide) h
    · rcases List.mem_cons.mp h with h | h
      · exact absurd h (by decide)
      · unfold fracChars at h
        rcases List.mem_append.mp h with h | h
        · have := List.eq_of_mem_replicate h
          exact absurd this (by decide)
        · exact not_mem_natToChars_symbol _ _ (by decide) h

theorem comma_not_mem_numToString (q : ℚ) : ',' ∉ numToString q := by
  unfold numToString
  cases hdec : decExp q with
  | none => simp
  | some k =>
    dsimp only
    split
    · intro hmem
      rcases List.mem_cons.mp hmem with h | h
      · exact absurd h (by decide)
      · exact comma_not_mem_posRat _ _ _ h
    · exact comma_not_mem_posRat _ _ _

theorem stringToPoint_pointToString (lo la : ℚ) (kl kk : ℕ)
    (hlo : decExp lo = some kl) (hla : decExp la = some kk) :
    stringToPoint (pointToString lo la) = some (lo, la) := by
  unfold pointToString stringToPoint
  have hsplit : jsSplit [','] (numToString lo ++ ',' :: numToString la) =
      [numToString lo, numToString la] := by
    rw [jsSplit, if_neg (by simp), jsSplitNE_single]
    rw [splitOnChar_boundary ',' _ _ (comma_not_mem_numToString lo)]
    rw [splitOnChar_no_sep ',' _ (comma_not_mem_numToString la)]
  rw [hsplit]
  simp only [List.head?_cons, List.getElem?_cons_succ, List.getElem?_cons_zero]
  rw [jsParseFloat_numToString lo kl hlo, jsParseFloat_numToString la kk hla]

/-! ## Data model (schema-definitions.ts) -/

/-- The closed set of field types of a `FieldDefinition`. `string[]` is
written `stringArray`. -/
inductive FieldType
| number
| boolean
| string
| text
| point
| date
| stringArray
| object
deriving DecidableEq

/-- A `FieldDefinition`: the type tag plus the optional `alias` and
`separator` options. (`alias` is a reserved word in Lean, hence
`aliasName`.) -/
structure FieldDef where
  type : FieldType
  aliasName : Option (List Char)
  separator : Option (List Char)
deriving DecidableEq

/-- An opaque structured payload for `object` fields. The converters pass it
through unchanged in both directions and never inspect it, so it is modelled
as a flat tagged value. -/
inductive JsObj
| onull
| obool (b : Bool)
| onum (q : ℚ)
| ostr (s : List Char)
| oarr (xs : List (List Char))
deriving DecidableEq

/-- A typed `EntityValue`. Numbers are exact-decimal rationals; dates carry
their integral epoch-millisecond time value. -/
inductive EntityValue
| vnum (q : ℚ)
| vbool (b : Bool)
| vstr (s : List Char)
| vpoint (longitude latitude : ℚ)
| vdate (epochMs : ℤ)
| varr (xs : List (List Char))
| vobj (o : JsObj)
deriving DecidableEq

/-- A stored value of the flat (`HashData`) encoding: normally a string, but
`object` fields pass through raw (the TS converter returns the value
unchanged despite the `string` annotation). -/
inductive HashValue
| hstr (s : List Char)
| hraw (v : EntityValue)
deriving DecidableEq

/-- A stored value of the structured (`JsonData`) encoding. Arrays hold
strings, the only array shape the converters produce or consume. -/
inductive JsonValue
| jnull
| jnum (q : ℚ)
| jbool (b : Bool)
| jstr (s : List Char)
| jarr (xs : List (List Char))
| jobj (o : JsObj)
deriving DecidableEq

/-- `SchemaDefinition`: insertion-ordered record of field definitions. -/
abbrev SchemaDef := List (List Char × FieldDef)

/-- `EntityData`: field name to typed value; a missing key means unset. -/
abbrev EntityData := List (List Char × EntityValue)

/-- Flat storage record. -/
abbrev HashData := List (List Char × HashValue)

/-- Structured storage record. -/
abbrev JsonData := List (List Char × JsonValue)

instance {ε α : Type} [DecidableEq ε] [DecidableEq α] : DecidableEq (Except ε α) := fun x y =>
  match x, y with
  | .ok a, .ok b => if h : a = b then .isTrue (by rw [h]) else .isFalse (by simp [h])
  | .error a, .error b => if h : a = b then .isTrue (by rw [h]) else .isFalse (by simp [h])
  | .ok _, .error _ => .isFalse (by simp)
  | .error _, .ok _ => .isFalse (by simp)

/-! ## Per-type converter helpers (part_000) -/

/-- A single-quote character, used in the error message templates. -/
def squote : Char := Char.ofNat 39

/-- Template of the error raised by `stringToNumber`. -/
def numberErrMsg (value : List Char) : List Char :=
  "Non-numeric value of ".toList ++ squote :: value ++ squote ::
    " read from Redis for number field.".toList

/-- Template of the error raised by `stringToBoolean`. Note that it names
the offending value but not the field. -/
def boolErrMsg (value : List Char) : List Char :=
  "Non-boolean value of ".toList ++ squote :: value ++ squote ::
    " read from Redis for boolean field.".toList

/-- Template of the error raised by `stringToDate`. -/
def dateErrMsg (value : List Char) : List Char :=
  "Non-numeric value of ".toList ++ squote :: value ++ squote ::
    " read from Redis for date field.".toList

/-- `dateToString`: `value.getTime().toString()`. -/
def dateToString (epochMs : ℤ) : List Char := intToChars epochMs

/-- `dateToNumber`: `value.getTime()`. -/
def dateToNumber (epochMs : ℤ) : ℚ := (epochMs : ℚ)

/-- `stringArrayToString`: `value.join` with the separator, default `|`. -/
def stringArrayToString (value : List (List Char)) (fieldDef : FieldDef) : List Char :=
  joinSep (fieldDef.separator.getD ['|']) value

/-- `stringToNumber`: `Number.parseFloat`, raising when the result is `NaN`. -/
def stringToNumber (value : List Char) : Except (List Char) ℚ :=
  match jsParseFloat value with
  | some n => .ok n
  | none => .error (numberErrMsg value)

/-- `stringToBoolean`: `"0"` and `"1"` decode; anything else raises. -/
def stringToBoolean (value : List Char) : Except (List Char) Bool :=
  if value = ['0'] then .ok false
  else if value = ['1'] then .ok true
  else .error (boolErrMsg value)

/-- `stringToDate`: `Number.parseInt`, raising on `NaN`, then
`date.setTime(parsed)`. -/
def stringToDate (value : List Char) : Except (List Char) ℤ :=
  match jsParseInt value with
  | some parsed => .ok parsed
  | none => .error (dateErrMsg value)

/-- `stringToStringArray`: `value.split` with the separator, default `|`. -/
def stringToStringArray (value : List Char) (fieldDef : FieldDef) : List (List Char) :=
  jsSplit (fieldDef.separator.getD ['|']) value

/-- Truncation toward zero, as JS `ToInteger` in `Date.prototype.setTime`. -/
def ratTrunc (q : ℚ) : ℤ := Int.tdiv q.num (q.den : ℤ)

/-- `numberToDate`: `date.setTime(value)`. -/
def numberToDate (value : ℚ) : ℤ := ratTrunc value

/-- The `toHashConverters` dispatch table of part_000. The TS source casts
the entity value to the shape the field type expects; a shape mismatch
(impossible for data written through the typed setter) is modelled as
`none`. `object` values pass through raw, exactly as in the source. -/
def toHashConverter : FieldType → EntityValue → FieldDef → Option HashValue
| .number, .vnum q, _ => some (.hstr (numToString q))
| .boolean, .vbool b, _ => some (.hstr (if b then ['1'] else ['0']))
| .string, .vstr s, _ => some (.hstr s)
| .text, .vstr s, _ => some (.hstr s)
| .point, .vpoint lo la, _ => some (.hstr (pointToString lo la))
| .date, .vdate t, _ => some (.hstr (dateToString t))
| .stringArray, .varr xs, fd => some (.hstr (stringArrayToString xs fd))
| .object, v, _ => some (.hraw v)
| _, _, _ => none

/-- An error marker for a stored value shape the source never receives
from Redis (a raw non-string under a non-`object` field). -/
def rawValueMsg : List Char := "raw value under a non-object field".toList

/-- An error marker for a malformed point; the source would silently yield
`NaN` coordinates here, which the rational model cannot represent. -/
def malformedPointMsg : List Char := "malformed point".toList

/-- The `fromHashConverters` dispatch table of part_000. -/
def fromHashConverter : FieldType → HashValue → FieldDef → Except (List Char) EntityValue
| .number, .hstr s, _ => Except.map EntityValue.vnum (stringToNumber s)
| .boolean, .hstr s, _ => Except.map EntityValue.vbool (stringToBoolean s)
| .string, .hstr s, _ => .ok (.vstr s)
| .text, .hstr s, _ => .ok (.vstr s)
| .point, .hstr s, _ =>
  match stringToPoint s with
  | some (lo, la) => .ok (.vpoint lo la)
  | none => .error malformedPointMsg
| .date, .hstr s, _ => Except.map EntityValue.vdate (stringToDate s)
| .stringArray, .hstr s, fd => .ok (.varr (stringToStringArray s fd))
| .object, .hstr s, _ => .ok (.vstr s)
| .object, .hraw v, _ => .ok v
| _, .hraw _, _ => .error rawValueMsg

/-- The `toJsonConverters` dispatch table of part_000: identity for native
types, string form for points, epoch milliseconds for dates. Shapes that the
TS no-op casts would pass through untyped are modelled as `none`. -/
def toJsonConverter : FieldType → EntityValue → Option JsonValue
| .number, .vnum q => some (.jnum q)
| .boolean, .vbool b => some (.jbool b)
| .string, .vstr s => some (.jstr s)
| .text, .vstr s => some (.jstr s)
| .point, .vpoint lo la => some (.jstr (pointToString lo la))
| .date, .vdate t => some (.jnum (dateToNumber t))
| .stringArray, .varr xs => some (.jarr xs)
| .object, .vobj o => some (.jobj o)
| _, _ => none

/-- The `fromJsonConverters` dispatch table of part_000: identity casts for
native types, `stringToPoint` for points, `numberToDate` for dates. -/
def fromJsonConverter : FieldType → JsonValue → Option EntityValue
| .number, .jnum q => some (.vnum q)
| .boolean, .jbool b => some (.vbool b)
| .string, .jstr s => some (.vstr s)
| .text, .jstr s => some (.vstr s)
| .point, .jstr s =>
  match stringToPoint s with
  | some (lo, la) => some (.vpoint lo la)
  | none => none
| .date, .jnum q => some (.vdate (numberToDate q))
| .stringArray, .jarr xs => some (.varr xs)
| .object, .jobj o => some (.vobj o)
| _, _ => none

namespace HashConverter

/-- `HashConverter.toHashData`: iterates the schema in declaration order,
skipping unset fields. Note: the record is keyed by the declared field name
(`hashData[fieldName]`), not by the alias. -/
def toHashData : SchemaDef → EntityData → Option HashData
| [], _ => some []
| (fieldName, fieldDef) :: rest, entityData =>
  match List.lookup fieldName entityData with
  | none => toHashData rest entityData
  | some v =>
    match toHashConverter fieldDef.type v fieldDef with
    | none => none
    | some hv =>
      match toHashData rest entityData with
      | none => none
      | some hd => some ((fieldName, hv) :: hd)

/-- `HashConverter.toEntityData`: iterates the schema in declaration order,
reading stored values by the declared field name and skipping missing keys. -/
def toEntityData : SchemaDef → HashData → Except (List Char) EntityData
| [], _ => .ok []
| (fieldName, fieldDef) :: rest, hashData =>
  match List.lookup fieldName hashData with
  | none => toEntityData rest hashData
  | some hv =>
    match fromHashConverter fieldDef.type hv fieldDef with
    | .error e => .error e
    | .ok v =>
      match toEntityData rest hashData with
      | .error e => .error e
      | .ok ed => .ok ((fieldName, v) :: ed)

end HashConverter

namespace JsonConverter

/-- `JsonConverter.toJsonData`: iterates the schema in declaration order,
skipping unset fields. -/
def toJsonData : SchemaDef → EntityData → Option JsonData
| [], _ => some []
| (fieldName, fieldDef) :: rest, entityData =>
  match List.lookup fieldName entityData with
  | none => toJsonData rest entityData
  | some v =>
    match toJsonConverter fieldDef.type v with
    | none => none
    | some jv =>
      match toJsonData rest entityData with
      | none => none
      | some jd => some ((fieldName, jv) :: jd)

/-- `JsonConverter.toEntityData`: a `null` whole record (the `none` input)
decodes to an empty entity; a missing (`undefined`) or `null` field value is
skipped, mirroring `jsonValue !== undefined && jsonValue !== null`. -/
def toEntityData : SchemaDef → Option JsonData → Option EntityData
| _, none => some []
| [], some _ => some []
| (fieldName, fieldDef) :: rest, some jsonData =>
  match List.lookup fieldName jsonData with
  | none => toEntityData rest (some jsonData)
  | some jv =>
    if jv = .jnull then toEntityData rest (some jsonData)
    else
      match fromJsonConverter fieldDef.type jv with
      | none => none
      | some v =>
        match toEntityData rest (some jsonData) with
        | none => none
        | some ed => some ((fieldName, v) :: ed)

end JsonConverter

/-! ## The older flat converter (src/lib/repository/hash-converter.ts) -/

/-- JS object property assignment on an association-list record. -/
def setKey {α : Type} (k : List Char) (v : α) : List (List Char × α) → List (List Char × α)
| [] => [(k, v)]
| (k2, v2) :: rest => if k2 = k then (k, v) :: rest else (k2, v2) :: setKey k v rest

namespace OldHashConverter

/-- The error message of the older `HashConverter.addBoolean`: unlike
`stringToBoolean` of part_000, it names both the field and the value. -/
def oldBoolErrMsg (field value : List Char) : List Char :=
  "Non-boolean value of ".toList ++ squote :: value ++ squote ::
    " read from Redis for boolean field ".toList ++ squote :: field ++ [squote]

/-- `HashConverter.addBoolean` of src/lib/repository/hash-converter.ts:
decodes `"0"`/`"1"` into the entity data, raising otherwise. -/
def addBoolean (field : List Char) (entityData : EntityData) (value : List Char) :
    Except (List Char) EntityData :=
  if value = ['0'] then .ok (setKey field (.vbool false) entityData)
  else if value = ['1'] then .ok (setKey field (.vbool true) entityData)
  else .error (oldBoolErrMsg field value)

end OldHashConverter

/-! ## Index schema builder (part_001, SchemaBuilder) -/

def tokNUMERIC : List Char := "NUMERIC".toList
def tokTAG : List Char := "TAG".toList
def tokGEO : List Char := "GEO".toList
def tokTEXT : List Char := "TEXT".toList
def tokSEPARATOR : List Char := "SEPARATOR".toList
def tokAS : List Char := "AS".toList
def dollarDot : List Char := "$.".toList
def starSuffix : List Char := "[*]".toList

namespace SchemaBuilder

/-- `SchemaBuilder.buildHashSchemaEntry`: `[alias, searchType, ...options]`,
mirroring the sequence of pushes in the source. -/
def buildHashSchemaEntry (field : List Char) (fieldDef : FieldDef) : List (List Char) :=
  let fieldAlias := fieldDef.aliasName.getD field
  [fieldAlias]
    ++ (if fieldDef.type = .date then [tokNUMERIC] else [])
    ++ (if fieldDef.type = .boolean then [tokTAG] else [])
    ++ (if fieldDef.type = .number then [tokNUMERIC] else [])
    ++ (if fieldDef.type = .point then [tokGEO] else [])
    ++ (if fieldDef.type = .stringArray then
          [tokTAG, tokSEPARATOR, fieldDef.separator.getD ['|']] else [])
    ++ (if fieldDef.type = .string then
          [tokTAG, tokSEPARATOR, fieldDef.separator.getD ['|']] else [])
    ++ (if fieldDef.type = .text then [tokTEXT] else [])

/-- `SchemaBuilder.buildJsonSchemaEntry`: `[path, AS, alias, searchType,
...options]`, where the path gets the element-wildcard suffix `[*]` exactly
for `string[]` fields, and no separator option is pushed for `string[]`. -/
def buildJsonSchemaEntry (field : List Char) (fieldDef : FieldDef) : List (List Char) :=
  let fieldAlias := fieldDef.aliasName.getD field
  let fieldPath := dollarDot ++ fieldAlias ++
    (if fieldDef.type = .stringArray then starSuffix else [])
  [fieldPath, tokAS, fieldAlias]
    ++ (if fieldDef.type = .boolean then [tokTAG] else [])
    ++ (if fieldDef.type = .number then [tokNUMERIC] else [])
    ++ (if fieldDef.type = .point then [tokGEO] else [])
    ++ (if fieldDef.type = .date then [tokNUMERIC] else [])
    ++ (if fieldDef.type = .stringArray then [tokTAG] else [])
    ++ (if fieldDef.type = .string then
          [tokTAG, tokSEPARATOR, fieldDef.separator.getD ['|']] else [])
    ++ (if fieldDef.type = .text then [tokTEXT] else [])

/-- `SchemaBuilder.buildJsonSchema`: concatenates the per-field entries in
schema declaration order. -/
def buildJsonSchema : SchemaDef → List (List Char)
| [] => []
| (field, fieldDef) :: rest => buildJsonSchemaEntry field fieldDef ++ buildJsonSchema rest

/-- `SchemaBuilder.buildHashSchema`. -/
def buildHashSchema : SchemaDef → List (List Char)
| [] => []
| (field, fieldDef) :: rest => buildHashSchemaEntry field fieldDef ++ buildHashSchema rest

end SchemaBuilder

/-! ## Fluent query builder (part_001, Search) -/

/-- The predicate tree (`Where` with its `WhereAnd`/`WhereOr` combinator
nodes). The per-type leaf builders (`WhereField` subclasses) are not among
the sources, so a leaf carries its rendered text. -/
inductive Where
| leaf (s : List Char)
| wand (l r : Where)
| wor (l r : Where)
deriving DecidableEq

/-- The combinator constructor passed to `Search.anyWhere`: `WhereAnd` for
`.where`/`.and`, `WhereOr` for `.or`. -/
inductive Combiner
| cand
| cor

/-- `new ctor(left, right)`. -/
def Combiner.apply : Combiner → Where → Where → Where
| .cand, l, r => .wand l r
| .cor, l, r => .wor l r

/-- `Search.anyWhereForField` (part_001 lines 343-353): the first predicate
becomes the root; each later call replaces the root with a new combinator
node whose left child is the previous root and whose right child is the new
leaf. -/
def anyWhereForField (ctor : Combiner) (rootWhere : Option Where) (w : Where) : Option Where :=
  match rootWhere with
  | none => some w
  | some r => some (ctor.apply r w)

/-- Modelled from the spec: the `toString` renderers of `WhereAnd` and
`WhereOr` (where-and.ts / where-or.ts are not among the sources) render as
`(left AND right)` / `(left OR right)`, always fully parenthesized; a leaf
renders its own text. -/
def Where.render : Where → List Char
| .leaf s => s
| .wand l r => '(' :: (l.render ++ " AND ".toList ++ r.render ++ [')'])
| .wor l r => '(' :: (l.render ++ " OR ".toList ++ r.render ++ [')'])

/-- `Search.query` (part_001 lines 276-279): an absent root renders as the
wildcard `*`. -/
def searchQuery (rootWhere : Option Where) : List Char :=
  match rootWhere with
  | none => ['*']
  | some w => w.render

/-- A chain of `.where`/`.and`/`.or` calls on one `Search`, each finalizing
one leaf predicate, applied to the initially absent root. -/
def applyCalls (calls : List (Combiner × Where)) : Option Where :=
  calls.foldl (fun root p => anyWhereForField p.1 root p.2) none

/-- Modelled from the spec: the example leaf syntax `{field}=value` used by
the spec (the per-type `WhereField` leaf builders are not among the
sources). -/
def eqLeaf (field value : List Char) : Where :=
  .leaf ('\x7b' :: (field ++ '\x7d' :: '=' :: value))

/-! ## The generated property setter (part_000, Schema.defineProperties) -/

/-- A JS value assigned through a generated property setter: `undefined`,
`null`, or a proper value. -/
inductive SetVal
| undef
| vnull
| val (v : EntityValue)

/-- Host-environment functionality used by the setter: `new Date(string)`
parsing and date display are implementation-defined, so the embedding takes
them as parameters. -/
structure JsEnv where
  newDateFromString : List Char → ℤ
  displayDate : ℤ → List Char

/-- JS `toString`/template interpolation of an entity value. -/
def jsDisplay (env : JsEnv) : EntityValue → List Char
| .vstr s => s
| .vnum q => numToString q
| .vbool b => if b then "true".toList else "false".toList
| .vpoint _ _ => "[object Object]".toList
| .vdate t => env.displayDate t
| .varr xs => joinSep [','] xs
| .vobj _ => "[object Object]".toList

def isString : EntityValue → Bool
| .vstr _ => true
| _ => false

def isNumber : EntityValue → Bool
| .vnum _ => true
| _ => false

def isBoolean : EntityValue → Bool
| .vbool _ => true
| _ => false

def isDate : EntityValue → Bool
| .vdate _ => true
| _ => false

def isArray : EntityValue → Bool
| .varr _ => true
| _ => false

/-- `isPoint`: both `longitude` and `latitude` members are numbers. -/
def isPoint : EntityValue → Bool
| .vpoint _ _ => true
| _ => false

def isStringable (v : EntityValue) : Bool := isString v || isNumber v || isBoolean v

def isDateable (v : EntityValue) : Bool := isDate v || isString v || isNumber v

/-- Payload of a string value (used only under an `isString` guard). -/
def strPayload : EntityValue → List Char
| .vstr s => s
| _ => []

/-- Payload of a numeric value (used only under an `isNumber` guard). -/
def numPayload : EntityValue → ℚ
| .vnum q => q
| _ => 0

/-- Payload of an array value (used only under an `isArray` guard); elements
are already strings, so the per-element `toString` of the source is the
identity. -/
def arrPayload : EntityValue → List (List Char)
| .varr xs => xs
| _ => []

/-- The `undefined` assignment error of the generated setter. -/
def undefinedSetMsg (field entityName : List Char) : List Char :=
  "Property ".toList ++ squote :: field ++ squote ::
    " on entity of type ".toList ++ squote :: entityName ++ squote ::
    " cannot be set to undefined. Use null instead.".toList

/-- The names under which the field types appear in error messages. -/
def fieldTypeName : FieldType → List Char
| .number => "number".toList
| .boolean => "boolean".toList
| .string => "string".toList
| .text => "text".toList
| .point => "point".toList
| .date => "date".toList
| .stringArray => "string[]".toList
| .object => "object".toList

/-- The type-mismatch error of the generated setter. -/
def typeErrMsg (env : JsEnv) (field : List Char) (t : FieldType) (v : EntityValue) : List Char :=
  "Property ".toList ++ squote :: field ++ squote ::
    " expected type of ".toList ++ squote :: fieldTypeName t ++ squote ::
    " but received value of ".toList ++ squote :: jsDisplay env v ++ squote :: ['.']

/-- JS `delete obj[key]` on an association-list record. -/
def eraseKey {α : Type} (k : List Char) : List (List Char × α) → List (List Char × α)
| [] => []
| (k2, v2) :: rest => if k2 = k then eraseKey k rest else (k2, v2) :: eraseKey k rest

/-- The property setter installed by `Schema.defineProperties` (part_000
lines 298-363), acting on the data record of the entity, which is keyed by
the field alias (`this.entityData[fieldAlias]`). -/
def propertySet (env : JsEnv) (field entityName : List Char) (fieldDef : FieldDef)
    (entityData : EntityData) (value : SetVal) : Except (List Char) EntityData :=
  let fieldAlias := fieldDef.aliasName.getD field
  match value with
  | .undef => .error (undefinedSetMsg field entityName)
  | .vnull => .ok (eraseKey fieldAlias entityData)
  | .val v =>
    if fieldDef.type = .string ∧ isStringable v then
      .ok (setKey fieldAlias (.vstr (jsDisplay env v)) entityData)
    else if fieldDef.type = .object then
      .ok (setKey fieldAlias v entityData)
    else if fieldDef.type = .text ∧ isStringable v then
      .ok (setKey fieldAlias (.vstr (jsDisplay env v)) entityData)
    else if fieldDef.type = .number ∧ isNumber v then
      .ok (setKey fieldAlias v entityData)
    else if fieldDef.type = .boolean ∧ isBoolean v then
      .ok (setKey fieldAlias v entityData)
    else if fieldDef.type = .point ∧ isPoint v then
      .ok (setKey fieldAlias v entityData)
    else if fieldDef.type = .date ∧ isDateable v ∧ isDate v then
      .ok (setKey fieldAlias v entityData)
    else if fieldDef.type = .date ∧ isDateable v ∧ isString v then
      .ok (setKey fieldAlias (.vdate (env.newDateFromString (strPayload v))) entityData)
    else if fieldDef.type = .date ∧ isDateable v ∧ isNumber v then
      .ok (setKey fieldAlias (.vdate (ratTrunc (numPayload v))) entityData)
    else if fieldDef.type = .stringArray ∧ isArray v then
      .ok (setKey fieldAlias (.varr (arrPayload v)) entityData)
    else .error (typeErrMsg env field fieldDef.type v)

/-! ## Round-trip infrastructure -/

/-- Does a value have the shape its declared field type expects? -/
def wellTyped : FieldType → EntityValue → Bool
| .number, .vnum _ => true
| .boolean, .vbool _ => true
| .string, .vstr _ => true
| .text, .vstr _ => true
| .point, .vpoint _ _ => true
| .date, .vdate _ => true
| .stringArray, .varr _ => true
| .object, .vobj _ => true
| _, _ => false

/-- All numbers occurring in the value are printable decimals within the
fuel bound (every finite JS double is an exact decimal). -/
def representable : EntityValue → Bool
| .vnum q => (decExp q).isSome
| .vpoint lo la => (decExp lo).isSome && (decExp la).isSome
| _ => true

/-- The condition under which a flat string-array value survives the
join/split round trip: a one-character separator not occurring in any
element, and a nonempty array. -/
def flatArrOK (fieldDef : FieldDef) : EntityValue → Bool
| .varr xs =>
  match fieldDef.separator.getD ['|'] with
  | [sc] => !xs.isEmpty && xs.all (fun x => decide (sc ∉ x))
  | _ => false
| _ => true

theorem fromJsonConverter_jnull (t : FieldType) : fromJsonConverter t .jnull = none := by
  cases t <;> rfl

theorem ratTrunc_intCast (t : ℤ) : ratTrunc ((t : ℤ) : ℚ) = t := by
  simp [ratTrunc]

theorem hashConv_rt (t : FieldType) (fd : FieldDef) (v : EntityValue)
    (hwt : wellTyped t v = true) (hrep : representable v = true)
    (harr : flatArrOK fd v = true) :
    ∃ hv, toHashConverter t v fd = some hv ∧ fromHashConverter t hv fd = Except.ok v := by
  cases t <;> cases v <;> simp only [wellTyped] at hwt <;> try simp at hwt
  · -- number / vnum
    rename_i q
    obtain ⟨k, hk⟩ := Option.isSome_iff_exists.mp (by simpa [representable] using hrep)
    exact ⟨_, rfl, by simp [fromHashConverter, stringToNumber,
      jsParseFloat_numToString q k hk, Except.map]⟩
  · -- boolean / vbool
    rename_i b
    cases b
    · exact ⟨_, rfl, by simp [fromHashConverter, stringToBoolean, Except.map]⟩
    · exact ⟨_, rfl, by simp [fromHashConverter, stringToBoolean, Except.map]⟩
  · -- string / vstr
    exact ⟨_, rfl, rfl⟩
  · -- text / vstr
    exact ⟨_, rfl, rfl⟩
  · -- point / vpoint
    rename_i lo la
    have hrep2 := by simpa [representable] using hrep
    obtain ⟨hl, hr⟩ := hrep2
    obtain ⟨kl, hkl⟩ := Option.isSome_iff_exists.mp hl
    obtain ⟨kk, hkk⟩ := Option.isSome_iff_exists.mp hr
    exact ⟨_, rfl, by simp [fromHashConverter,
      stringToPoint_pointToString lo la kl kk hkl hkk]⟩
  · -- date / vdate
    rename_i d
    exact ⟨_, rfl, by simp [fromHashConverter, stringToDate, dateToString,
      jsParseInt_intToChars, Except.map]⟩
  · -- stringArray / varr
    rename_i xs
    refine ⟨_, rfl, ?_⟩
    simp only [fromHashConverter, stringToStringArray, stringArrayToString]
    cases hsep : fd.separator.getD ['|'] with
    | nil => rw [flatArrOK, hsep] at harr; simp at harr
    | cons sc rest =>
      cases rest with
      | cons c2 r2 => rw [flatArrOK, hsep] at harr; simp at harr
      | nil =>
        rw [flatArrOK, hsep] at harr
        simp only [Bool.and_eq_true, List.all_eq_true, decide_eq_true_eq,
          Bool.not_eq_true'] at harr
        obtain ⟨hne, hmem⟩ := harr
        rw [jsSplit_joinSep sc xs (by simpa [List.isEmpty_iff] using hne) hmem]
  · -- object / vobj
    exact ⟨_, rfl, rfl⟩

theorem jsonConv_rt (t : FieldType) (v : EntityValue)
    (hwt : wellTyped t v = true) (hrep : representable v = true) :
    ∃ jv, toJsonConverter t v = some jv ∧ fromJsonConverter t jv = some v := by
  cases t <;> cases v <;> simp only [wellTyped] at hwt <;> try simp at hwt
  · exact ⟨_, rfl, rfl⟩
  · exact ⟨_, rfl, rfl⟩
  · exact ⟨_, rfl, rfl⟩
  · exact ⟨_, rfl, rfl⟩
  · -- point / vpoint
    rename_i lo la
    have hrep2 := by simpa [representable] using hrep
    obtain ⟨hl, hr⟩ := hrep2
    obtain ⟨kl, hkl⟩ := Option.isSome_iff_exists.mp hl
    obtain ⟨kk, hkk⟩ := Option.isSome_iff_exists.mp hr
    exact ⟨_, rfl, by simp [fromJsonConverter,
      stringToPoint_pointToString lo la kl kk hkl hkk]⟩
  · -- date / vdate
    rename_i d
    exact ⟨_, rfl, by simp [fromJsonConverter, dateToNumber, numberToDate, ratTrunc_intCast]⟩
  · exact ⟨_, rfl, rfl⟩
  · exact ⟨_, rfl, rfl⟩

/-! ## Shared helper lemmas -/

theorem jsSplit_single_eq (sc : Char) (s : List Char) : jsSplit [sc] s = splitOnChar sc s := by
  rw [jsSplit, if_neg (by simp), jsSplitNE_single]

theorem containsSub_sandwich (s pre suf : List Char) :
    containsSub s (pre ++ (s ++ suf)) = true := by
  induction pre with
  | nil =>
    cases s with
    | nil => cases suf <;> simp [containsSub, List.isEmpty, List.isPrefixOf]
    | cons c cs =>
      simp only [List.nil_append, List.cons_append, containsSub, Bool.or_eq_true]
      left
      rw [List.isPrefixOf_iff_prefix]
      exact ⟨suf, by simp⟩
  | cons c pre ih =>
    simp only [List.cons_append, containsSub, Bool.or_eq_true]
    right
    exact ih

theorem lookup_eraseKey {α : Type} (k : List Char) (l : List (List Char × α)) :
    List.lookup k (eraseKey k l) = none := by
  induction l with
  | nil => rfl
  | cons p rest ih =>
    obtain ⟨k2, v2⟩ := p
    by_cases h : k2 = k
    · rw [eraseKey, if_pos h]
      exact ih
    · rw [eraseKey, if_neg h]
      have hb : (k == k2) = false := by simpa using Ne.symm h
      rw [List.lookup, hb]
      exact ih

theorem lookup_cons_ne {α : Type} (k g : List Char) (v : α) (l : List (List Char × α))
    (h : k ≠ g) : List.lookup k ((g, v) :: l) = List.lookup k l := by
  have hb : (k == g) = false := by simpa using h
  rw [List.lookup, hb]

theorem toHashData_absent (sd : SchemaDef) (entityData : EntityData) (hd : HashData)
    (f : List Char) (henc : HashConverter.toHashData sd entityData = some hd)
    (habs : List.lookup f entityData = none) : List.lookup f hd = none := by
  induction sd generalizing hd with
  | nil =>
    simp only [HashConverter.toHashData, Option.some.injEq] at henc
    rw [← henc]
    rfl
  | cons p rest ih =>
    obtain ⟨g, fd⟩ := p
    rw [HashConverter.toHashData] at henc
    cases hg : List.lookup g entityData with
    | none =>
      rw [hg] at henc
      dsimp only at henc
      exact ih hd henc
    | some v =>
      rw [hg] at henc
      dsimp only at henc
      cases hconv : toHashConverter fd.type v fd with
      | none => rw [hconv] at henc; simp at henc
      | some hv =>
        rw [hconv] at henc
        dsimp only at henc
        cases hrec : HashConverter.toHashData rest entityData with
        | none => rw [hrec] at henc; simp at henc
        | some hd2 =>
          rw [hrec] at henc
          dsimp only at henc
          obtain rfl : (g, hv) :: hd2 = hd := by simpa using henc
          have hfg : f ≠ g := by
            intro hfg
            rw [hfg, hg] at habs
            exact Option.noConfusion habs
          rw [lookup_cons_ne f g hv hd2 hfg]
          exact ih hd2 hrec

theorem hashDecode_absent (sd : SchemaDef) (hashData : HashData) (ed : EntityData)
    (f : List Char) (hdec : HashConverter.toEntityData sd hashData = .ok ed)
    (habs : List.lookup f hashData = none) : List.lookup f ed = none := by
  induction sd generalizing ed with
  | nil =>
    simp only [HashConverter.toEntityData] at hdec
    obtain rfl : ([] : EntityData) = ed := by simpa using hdec
    rfl
  | cons p rest ih =>
    obtain ⟨g, fd⟩ := p
    rw [HashConverter.toEntityData] at hdec
    cases hg : List.lookup g hashData with
    | none =>
      rw [hg] at hdec
      dsimp only at hdec
      exact ih ed hdec
    | some hv =>
      rw [hg] at hdec
      dsimp only at hdec
      cases hconv : fromHashConverter fd.type hv fd with
      | error e => rw [hconv] at hdec; simp at hdec
      | ok v =>
        rw [hconv] at hdec
        dsimp only at hdec
        cases hrec : HashConverter.toEntityData rest hashData with
        | error e => rw [hrec] at hdec; simp at hdec
        | ok ed2 =>
          rw [hrec] at hdec
          dsimp only at hdec
          obtain rfl : (g, v) :: ed2 = ed := by simpa using hdec
          have hfg : f ≠ g := by
            intro hfg
            rw [hfg, hg] at habs
            exact Option.noConfusion habs
          rw [lookup_cons_ne f g v ed2 hfg]
          exact ih ed2 hrec

theorem toJsonData_absent (sd : SchemaDef) (entityData : EntityData) (jd : JsonData)
    (f : List Char) (henc : JsonConverter.toJsonData sd entityData = some jd)
    (habs : List.lookup f entityData = none) : List.lookup f jd = none := by
  induction sd generalizing jd with
  | nil =>
    simp only [JsonConverter.toJsonData, Option.some.injEq] at henc
    rw [← henc]
    rfl
  | cons p rest ih =>
    obtain ⟨g, fd⟩ := p
    rw [JsonConverter.toJsonData] at henc
    cases hg : List.lookup g entityData with
    | none =>
      rw [hg] at henc
      dsimp only at henc
      exact ih jd henc
    | some v =>
      rw [hg] at henc
      dsimp only at henc
      cases hconv : toJsonConverter fd.type v with
      | none => rw [hconv] at henc; simp at henc
      | some jv =>
        rw [hconv] at henc
        dsimp only at henc
        cases hrec : JsonConverter.toJsonData rest entityData with
        | none => rw [hrec] at henc; simp at henc
        | some jd2 =>
          rw [hrec] at henc
          dsimp only at henc
          obtain rfl : (g, jv) :: jd2 = jd := by simpa using henc
          have hfg : f ≠ g := by
            intro hfg
            rw [hfg, hg] at habs
            exact Option.noConfusion habs
          rw [lookup_cons_ne f g jv jd2 hfg]
          exact ih jd2 hrec

theorem jsonDecode_skips (sd : SchemaDef) (jsonData : JsonData) (ed : EntityData)
    (f : List Char) (hdec : JsonConverter.toEntityData sd (some jsonData) = some ed)
    (habs : List.lookup f jsonData = none ∨ List.lookup f jsonData = some .jnull) :
    List.lookup f ed = none := by
  induction sd generalizing ed with
  | nil =>
    simp only [JsonConverter.toEntityData, Option.some.injEq] at hdec
    rw [← hdec]
    rfl
  | cons p rest ih =>
    obtain ⟨g, fd⟩ := p
    rw [JsonConverter.toEntityData] at hdec
    cases hg : List.lookup g jsonData with
    | none =>
      rw [hg] at hdec
      dsimp only at hdec
      exact ih ed hdec
    | some jv =>
      rw [hg] at hdec
      dsimp only at hdec
      by_cases hjv : jv = JsonValue.jnull
      · rw [if_pos hjv] at hdec
        exact ih ed hdec
      · rw [if_neg hjv] at hdec
        cases hconv : fromJsonConverter fd.type jv with
        | none => rw [hconv] at hdec; simp at hdec
        | some v =>
          rw [hconv] at hdec
          dsimp only at hdec
          cases hrec : JsonConverter.toEntityData rest (some jsonData) with
          | none => rw [hrec] at hdec; simp at hdec
          | some ed2 =>
            rw [hrec] at hdec
            dsimp only at hdec
            obtain rfl : (g, v) :: ed2 = ed := by simpa using hdec
            have hfg : f ≠ g := by
              intro hfg
              rcases habs with habs | habs <;> rw [hfg, hg] at habs
              · exact Option.noConfusion habs
              · exact hjv (by simpa using habs)
            rw [lookup_cons_ne f g v ed2 hfg]
            exact ih ed2 hrec

/-- Does the remainder of the input fail to extend a numeric prefix? (Its
head, if any, is neither a digit nor a decimal point.) -/
def noNumContinuation : List Char → Bool
| [] => true
| c :: _ => !(c.isDigit || c = '.')

theorem noNumContinuation_split (rest : List Char) (h : noNumContinuation rest = true) :
    headIsDigit rest = false ∧ headIsDot rest = false := by
  cases rest with
  | nil => exact ⟨rfl, rfl⟩
  | cons c t =>
    simp only [noNumContinuation, Bool.not_eq_true', Bool.or_eq_false_iff] at h
    constructor
    · simp [headIsDigit, h.1]
    · have hc : c ≠ '.' := by simpa using h.2
      simp [headIsDot, hc]

/-! ## General numeric prefixes: arbitrary digit runs, whitespace, sign -/

/-- The numeric value of a big-endian list of decimal digits. Leading zeros
are allowed and do not change the value. -/
def digitsVal (L : List ℕ) : ℕ := L.foldl (fun x d => x * 10 + d) 0

theorem charVal_digitChar (d : ℕ) (hd : d < 10) : charVal (digitChar d) = d := by
  interval_cases d <;> rfl

theorem digitChar_not_space (d : ℕ) (hd : d < 10) : isSpaceChar (digitChar d) = false := by
  interval_cases d <;> decide

theorem chVal_mapDigits (L : List ℕ) (hL : ∀ d ∈ L, d < 10) :
    ∀ a, chVal a (L.map digitChar) = L.foldl (fun x d => x * 10 + d) a := by
  induction L with
  | nil => intro a; rfl
  | cons d L ih =>
    intro a
    have hd : d < 10 := hL d (by simp)
    have hL2 : ∀ x ∈ L, x < 10 := fun x hx => hL x (by simp [hx])
    rw [List.map_cons, chVal_cons, charVal_digitChar d hd, ih hL2]
    rfl

/-- Consuming an arbitrary run of digit characters, stopping at a non-digit:
the value read is the value of the digit list, leading zeros included. -/
theorem parseNatAux_mapped (L : List ℕ) (hL : ∀ d ∈ L, d < 10) (rest : List Char)
    (h : headIsDigit rest = false) :
    parseNatAux 0 0 (L.map digitChar ++ rest) = (digitsVal L, L.length, rest) := by
  have hds : ∀ c ∈ L.map digitChar, c.isDigit = true := by
    intro c hc
    obtain ⟨d, hd, rfl⟩ := List.mem_map.mp hc
    exact (digitChar_props d (hL d hd)).1
  rw [parseNatAux_digits _ hds, parseNatAux_stop _ _ _ h, chVal_mapDigits L hL 0]
  simp [digitsVal]

/-- Is the head, if any, not a whitespace character? -/
def headNotSpace : List Char → Bool
| [] => true
| c :: _ => !(isSpaceChar c)

/-- Is the head, if any, not a sign character? -/
def headNotSign : List Char → Bool
| [] => true
| c :: _ => !(c == '-') && !(c == '+')

theorem digit_head_ok (d : ℕ) (hd : d < 10) (x : List Char) :
    headNotSpace (digitChar d :: x) = true ∧ headNotSign (digitChar d :: x) = true := by
  obtain ⟨-, h1, h2, -, -, -⟩ := digitChar_props d hd
  constructor
  · simp [headNotSpace, digitChar_not_space d hd]
  · simp [headNotSign, h1, h2]

theorem dropWhile_spaces (ws t : List Char) (hws : ∀ c ∈ ws, isSpaceChar c = true) :
    (ws ++ t).dropWhile isSpaceChar = t.dropWhile isSpaceChar := by
  induction ws with
  | nil => rfl
  | cons c cs ih =>
    have hc : isSpaceChar c = true := hws c (by simp)
    have hcs : ∀ x ∈ cs, isSpaceChar x = true := fun x hx => hws x (by simp [hx])
    rw [List.cons_append, List.dropWhile_cons, if_pos hc]
    exact ih hcs

theorem dropWhile_of_headNotSpace (t : List Char) (h : headNotSpace t = true) :
    t.dropWhile isSpaceChar = t := by
  cases t with
  | nil => rfl
  | cons c cs =>
    have hc : isSpaceChar c = false := by simpa [headNotSpace] using h
    rw [List.dropWhile_cons, if_neg (by simp [hc])]

theorem parseSign_append (sgn : List Char) (neg : Bool) (t : List Char)
    (hsgn : sgn = [] ∧ neg = false ∨ sgn = ['+'] ∧ neg = false ∨ sgn = ['-'] ∧ neg = true)
    (ht : headNotSign t = true) :
    parseSign (sgn ++ t) = (neg, t) := by
  rcases hsgn with ⟨rfl, rfl⟩ | ⟨rfl, rfl⟩ | ⟨rfl, rfl⟩
  · cases t with
    | nil => rfl
    | cons c cs =>
      simp only [headNotSign, Bool.and_eq_true, Bool.not_eq_true'] at ht
      have h1 : ¬(c = '-') := by simpa using ht.1
      have h2 : ¬(c = '+') := by simpa using ht.2
      simp [parseSign, h1, h2]
  · rfl
  · rfl

/-- The front end shared by `jsParseFloat` and `jsParseInt`: leading
whitespace is dropped and an optional sign (absent, `+` or `-`) consumed,
leaving the body intact. -/
theorem parse_front (ws sgn body : List Char) (neg : Bool)
    (hws : ∀ c ∈ ws, isSpaceChar c = true)
    (hsgn : sgn = [] ∧ neg = false ∨ sgn = ['+'] ∧ neg = false ∨ sgn = ['-'] ∧ neg = true)
    (hb1 : headNotSpace body = true) (hb2 : headNotSign body = true) :
    parseSign ((ws ++ (sgn ++ body)).dropWhile isSpaceChar) = (neg, body) := by
  rw [dropWhile_spaces ws (sgn ++ body) hws]
  have hsb : headNotSpace (sgn ++ body) = true := by
    rcases hsgn with ⟨rfl, -⟩ | ⟨rfl, -⟩ | ⟨rfl, -⟩
    · simpa using hb1
    · rfl
    · rfl
  rw [dropWhile_of_headNotSpace _ hsb]
  exact parseSign_append sgn neg body hsgn hb2

theorem numBody_head_int (intDs : List ℕ) (hint : ∀ d ∈ intDs, d < 10) (hne : intDs ≠ [])
    (rest : List Char) :
    headNotSpace (intDs.map digitChar ++ rest) = true ∧
      headNotSign (intDs.map digitChar ++ rest) = true := by
  cases intDs with
  | nil => exact absurd rfl hne
  | cons d ds =>
    have hd : d < 10 := hint d (by simp)
    simpa [List.map_cons, List.cons_append] using digit_head_ok d hd (ds.map digitChar ++ rest)

theorem numBody_head_dot (intDs : List ℕ) (hint : ∀ d ∈ intDs, d < 10) (x : List Char) :
    headNotSpace (intDs.map digitChar ++ ('.' :: x)) = true ∧
      headNotSign (intDs.map digitChar ++ ('.' :: x)) = true := by
  cases intDs with
  | nil => exact ⟨rfl, rfl⟩
  | cons d ds =>
    have hd : d < 10 := hint d (by simp)
    simpa [List.map_cons, List.cons_append] using digit_head_ok d hd (ds.map digitChar ++ ('.' :: x))

theorem parseUnsigned_intRun (intDs : List ℕ) (hint : ∀ d ∈ intDs, d < 10)
    (hne : intDs ≠ []) (rest : List Char) (hr : noNumContinuation rest = true) :
    parseUnsigned (intDs.map digitChar ++ rest) = some ((digitsVal intDs : ℚ)) := by
  obtain ⟨hrd, hrdot⟩ := noNumContinuation_split rest hr
  unfold parseUnsigned
  rw [parseNatAux_mapped intDs hint rest hrd]
  dsimp only
  rw [if_neg (by simp [hrdot])]
  rw [if_neg (by simpa [List.length_eq_zero] using hne)]

theorem parseUnsigned_fracRun (intDs fracDs : List ℕ) (hint : ∀ d ∈ intDs, d < 10)
    (hfrac : ∀ d ∈ fracDs, d < 10) (hne : ¬(intDs = [] ∧ fracDs = []))
    (rest : List Char) (hrd : headIsDigit rest = false) :
    parseUnsigned (intDs.map digitChar ++ ('.' :: (fracDs.map digitChar ++ rest))) =
      some ((digitsVal intDs : ℚ) + (digitsVal fracDs : ℚ) / 10 ^ fracDs.length) := by
  unfold parseUnsigned
  rw [parseNatAux_mapped intDs hint _ (by rfl)]
  dsimp only
  rw [if_pos (by rfl)]
  simp only [List.tail_cons]
  rw [parseNatAux_mapped fracDs hfrac rest hrd]
  dsimp only
  have hcnt : ¬(intDs.length = 0 ∧ fracDs.length = 0) := by
    rintro ⟨h1, h2⟩
    exact hne ⟨List.length_eq_zero.mp h1, List.length_eq_zero.mp h2⟩
  rw [if_neg hcnt]

theorem jsParseFloat_lead_int (ws sgn : List Char) (neg : Bool) (intDs : List ℕ)
    (rest : List Char) (hws : ∀ c ∈ ws, isSpaceChar c = true)
    (hsgn : sgn = [] ∧ neg = false ∨ sgn = ['+'] ∧ neg = false ∨ sgn = ['-'] ∧ neg = true)
    (hint : ∀ d ∈ intDs, d < 10) (hne : intDs ≠ []) (hr : noNumContinuation rest = true) :
    jsParseFloat (ws ++ (sgn ++ (intDs.map digitChar ++ rest))) =
      some (if neg then -(digitsVal intDs : ℚ) else (digitsVal intDs : ℚ)) := by
  obtain ⟨hb1, hb2⟩ := numBody_head_int intDs hint hne rest
  unfold jsParseFloat
  rw [parse_front ws sgn _ neg hws hsgn hb1 hb2]
  dsimp only
  rw [parseUnsigned_intRun intDs hint hne rest hr]
  rfl

theorem jsParseFloat_lead_frac (ws sgn : List Char) (neg : Bool) (intDs fracDs : List ℕ)
    (rest : List Char) (hws : ∀ c ∈ ws, isSpaceChar c = true)
    (hsgn : sgn = [] ∧ neg = false ∨ sgn = ['+'] ∧ neg = false ∨ sgn = ['-'] ∧ neg = true)
    (hint : ∀ d ∈ intDs, d < 10) (hfrac : ∀ d ∈ fracDs, d < 10)
    (hne : ¬(intDs = [] ∧ fracDs = [])) (hrd : headIsDigit rest = false) :
    jsParseFloat (ws ++ (sgn ++ (intDs.map digitChar ++
        ('.' :: (fracDs.map digitChar ++ rest))))) =
      some (if neg then -((digitsVal intDs : ℚ) + (digitsVal fracDs : ℚ) / 10 ^ fracDs.length)
        else (digitsVal intDs : ℚ) + (digitsVal fracDs : ℚ) / 10 ^ fracDs.length) := by
  obtain ⟨hb1, hb2⟩ := numBody_head_dot intDs hint (fracDs.map digitChar ++ rest)
  unfold jsParseFloat
  rw [parse_front ws sgn _ neg hws hsgn hb1 hb2]
  dsimp only
  rw [parseUnsigned_fracRun intDs fracDs hint hfrac hne rest hrd]
  rfl

theorem jsParseInt_lead (ws sgn : List Char) (neg : Bool) (intDs : List ℕ)
    (rest : List Char) (hws : ∀ c ∈ ws, isSpaceChar c = true)
    (hsgn : sgn = [] ∧ neg = false ∨ sgn = ['+'] ∧ neg = false ∨ sgn = ['-'] ∧ neg = true)
    (hint : ∀ d ∈ intDs, d < 10) (hne : intDs ≠ []) (hrd : headIsDigit rest = false) :
    jsParseInt (ws ++ (sgn ++ (intDs.map digitChar ++ rest))) =
      some (if neg then -(digitsVal intDs : ℤ) else (digitsVal intDs : ℤ)) := by
  obtain ⟨hb1, hb2⟩ := numBody_head_int intDs hint hne rest
  unfold jsParseInt
  rw [parse_front ws sgn _ neg hws hsgn hb1 hb2]
  dsimp only
  rw [parseNatAux_mapped intDs hint rest hrd]
  dsimp only
  rw [if_neg (by simpa [List.length_eq_zero] using hne)]

/-! ## When is the parse rejected? Exactly when there is no numeric prefix -/

theorem parseNatAux_cnt_ge (s : List Char) : ∀ a k, k ≤ (parseNatAux a k s).2.1 := by
  induction s with
  | nil => intro a k; exact le_rfl
  | cons c cs ih =>
    intro a k
    by_cases hc : c.isDigit = true
    · have h := ih (a * 10 + charVal c) (k + 1)
      simpa [parseNatAux, hc] using le_trans (Nat.le_succ k) h
    · simp [parseNatAux, hc]

theorem parseNatAux_cnt_succ (c : Char) (cs : List Char) (hc : c.isDigit = true) (a k : ℕ) :
    k + 1 ≤ (parseNatAux a k (c :: cs)).2.1 := by
  simpa [parseNatAux, hc] using parseNatAux_cnt_ge cs (a * 10 + charVal c) (k + 1)

theorem parseUnsigned_some_of_digit (c : Char) (cs : List Char) (hc : c.isDigit = true) :
    ∃ q, parseUnsigned (c :: cs) = some q := by
  have h1 := parseNatAux_cnt_succ c cs hc 0 0
  unfold parseUnsigned
  cases hpn : parseNatAux 0 0 (c :: cs) with
  | mk iv p =>
  cases p with
  | mk ic r2 =>
  rw [hpn] at h1
  dsimp only at h1
  dsimp only
  by_cases hdot : headIsDot r2 = true
  · rw [if_pos hdot]
    cases hpn2 : parseNatAux 0 0 r2.tail with
    | mk fv p2 =>
    cases p2 with
    | mk fc r3 =>
    dsimp only
    rw [if_neg (by rintro ⟨hi, -⟩; omega)]
    exact ⟨_, rfl⟩
  · rw [if_neg hdot]
    rw [if_neg (by omega)]
    exact ⟨_, rfl⟩

/-- A structural reading of "the leading characters parse as a number":
after the optional sign, the body starts with a digit, or with a decimal
point followed by a digit. -/
def numPrefixBody : List Char → Bool
| [] => false
| c :: rest => c.isDigit || (c == '.' && headIsDigit rest)

/-- Does the string carry a numeric prefix: after optional whitespace and
an optional sign, a digit, or a decimal point followed by a digit? -/
def startsNumeric (s : List Char) : Bool :=
  numPrefixBody (parseSign (s.dropWhile isSpaceChar)).2

/-- Does the string carry an integer prefix: after optional whitespace and
an optional sign, a digit? -/
def startsInteger (s : List Char) : Bool :=
  headIsDigit (parseSign (s.dropWhile isSpaceChar)).2

theorem parseUnsigned_isSome_eq (t : List Char) :
    (parseUnsigned t).isSome = numPrefixBody t := by
  cases t with
  | nil => rfl
  | cons c rest =>
    by_cases hc : c.isDigit = true
    · obtain ⟨q, hq⟩ := parseUnsigned_some_of_digit c rest hc
      rw [hq]
      simp [numPrefixBody, hc]
    · have hcb : c.isDigit = false := by simpa using hc
      have hstop : parseNatAux 0 0 (c :: rest) = (0, 0, c :: rest) :=
        parseNatAux_stop 0 0 _ (by simp [headIsDigit, hcb])
      unfold parseUnsigned
      rw [hstop]
      dsimp only
      by_cases hcd : c = '.'
      · subst hcd
        rw [if_pos (by rfl)]
        simp only [List.tail_cons]
        by_cases hrd : headIsDigit rest = true
        · cases rest with
          | nil => simp [headIsDigit] at hrd
          | cons c2 r2 =>
            have hc2 : c2.isDigit = true := by simpa [headIsDigit] using hrd
            have h2 := parseNatAux_cnt_succ c2 r2 hc2 0 0
            cases hpn2 : parseNatAux 0 0 (c2 :: r2) with
            | mk fv p2 =>
            cases p2 with
            | mk fc r3 =>
            rw [hpn2] at h2
            dsimp only at h2
            dsimp only
            rw [if_neg (by rintro ⟨-, hf⟩; omega)]
            simp [numPrefixBody, hcb, hrd]
        · have hrdf : headIsDigit rest = false := by simpa using hrd
          rw [parseNatAux_stop 0 0 rest hrdf]
          dsimp only
          simp [numPrefixBody, hcb, hrdf]
      · rw [if_neg (by simp [headIsDot, hcd])]
        simp [numPrefixBody, hcb, hcd]

theorem jsParseFloat_isSome_eq (s : List Char) :
    (jsParseFloat s).isSome = startsNumeric s := by
  unfold jsParseFloat startsNumeric
  cases hps : parseSign (s.dropWhile isSpaceChar) with
  | mk neg t =>
    dsimp only
    rw [← parseUnsigned_isSome_eq t]
    cases hpu : parseUnsigned t <;> simp [hpu]

theorem jsParseInt_isSome_eq (s : List Char) :
    (jsParseInt s).isSome = startsInteger s := by
  unfold jsParseInt startsInteger
  cases hps : parseSign (s.dropWhile isSpaceChar) with
  | mk neg t =>
    dsimp only
    cases t with
    | nil => rfl
    | cons c cs =>
      by_cases hc : c.isDigit = true
      · have h1 := parseNatAux_cnt_succ c cs hc 0 0
        cases hpn : parseNatAux 0 0 (c :: cs) with
        | mk v p =>
        cases p with
        | mk cnt r =>
        rw [hpn] at h1
        dsimp only at h1
        dsimp only
        rw [if_neg (by omega)]
        simp [headIsDigit, hc]
      · have hcb : c.isDigit = false := by simpa using hc
        rw [parseNatAux_stop 0 0 _ (by simp [headIsDigit, hcb])]
        dsimp only
        simp [headIsDigit, hcb]

/-- The `stringToNumber` converter succeeds exactly on strings with a
numeric prefix, and raises its error exactly on the rest. -/
theorem stringToNumber_cases (s : List Char) :
    (stringToNumber s = .error (numberErrMsg s) ↔ startsNumeric s = false) ∧
    (startsNumeric s = true → ∃ q, stringToNumber s = .ok q) := by
  have hiso := jsParseFloat_isSome_eq s
  constructor
  · cases hpf : jsParseFloat s with
    | none =>
      have hsn : startsNumeric s = false := by rw [← hiso, hpf]; rfl
      have herr : stringToNumber s = .error (numberErrMsg s) := by
        unfold stringToNumber
        rw [hpf]
      exact ⟨fun _ => hsn, fun _ => herr⟩
    | some q =>
      have hsn : startsNumeric s = true := by rw [← hiso, hpf]; rfl
      have hok : stringToNumber s = .ok q := by
        unfold stringToNumber
        rw [hpf]
      constructor
      · intro herr
        rw [hok] at herr
        exact absurd herr (by simp)
      · intro hfalse
        rw [hsn] at hfalse
        exact absurd hfalse (by simp)
  · intro hpre
    have hs : (jsParseFloat s).isSome = true := by rw [hiso, hpre]
    obtain ⟨q, hq⟩ := Option.isSome_iff_exists.mp hs
    refine ⟨q, ?_⟩
    unfold stringToNumber
    rw [hq]

/-- The `stringToDate` converter succeeds exactly on strings with an
integer prefix, and raises its error exactly on the rest. -/
theorem stringToDate_cases (s : List Char) :
    (stringToDate s = .error (dateErrMsg s) ↔ startsInteger s = false) ∧
    (startsInteger s = true → ∃ t, stringToDate s = .ok t) := by
  have hiso := jsParseInt_isSome_eq s
  constructor
  · cases hpf : jsParseInt s with
    | none =>
      have hsn : startsInteger s = false := by rw [← hiso, hpf]; rfl
      have herr : stringToDate s = .error (dateErrMsg s) := by
        unfold stringToDate
        rw [hpf]
      exact ⟨fun _ => hsn, fun _ => herr⟩
    | some t =>
      have hsn : startsInteger s = true := by rw [← hiso, hpf]; rfl
      have hok : stringToDate s = .ok t := by
        unfold stringToDate
        rw [hpf]
      constructor
      · intro herr
        rw [hok] at herr
        exact absurd herr (by simp)
      · intro hfalse
        rw [hsn] at hfalse
        exact absurd hfalse (by simp)
  · intro hpre
    have hs : (jsParseInt s).isSome = true := by rw [hiso, hpre]
    obtain ⟨t, ht⟩ := Option.isSome_iff_exists.mp hs
    refine ⟨t, ?_⟩
    unfold stringToDate
    rw [ht]

/-! ## Named literals used in the claim theorems -/

def fooName : List Char := "foo".toList
def barName : List Char := "bar".toList
def aBooleanName : List Char := "aBoolean".toList
def maybeStr : List Char := "maybe".toList
def tagsName : List Char := "tags".toList
def tagsPath : List Char := "$.tags[*]".toList
def pointSpecStr : List Char := "-122.27,37.80".toList
def pointCodeStr : List Char := "-122.27,37.8".toList
def useNullStr : List Char := "Use null instead.".toList

/-! ## Claims -/

/-- C1, counterexample: the round-trip law fails as stated. For the flat
encoding and a `string[]` field with the default separator, the value
`["a|b"]` encodes to the string `"a|b"`, which decodes to `["a","b"]`, not
to `["a|b"]` — even though the value is well-typed and representable. -/
theorem c1_round_trip_counterexample :
    wellTyped FieldType.stringArray (.varr [['a', '|', 'b']]) = true ∧
    representable (.varr [['a', '|', 'b']]) = true ∧
    HashConverter.toHashData [(['f'], FieldDef.mk .stringArray none none)]
      [(['f'], .varr [['a', '|', 'b']])] = some [(['f'], .hstr ['a', '|', 'b'])] ∧
    HashConverter.toEntityData [(['f'], FieldDef.mk .stringArray none none)]
      [(['f'], .hstr ['a', '|', 'b'])] = .ok [(['f'], .varr [['a'], ['b']])] ∧
    EntityValue.varr [['a'], ['b']] ≠ EntityValue.varr [['a', '|', 'b']] := by
  refine ⟨by decide, by decide, by decide, ?_, by decide⟩
  have hsplit : stringToStringArray ['a', '|', 'b'] (FieldDef.mk .stringArray none none) =
      [['a'], ['b']] := by
    show jsSplit ['|'] ['a', '|', 'b'] = [['a'], ['b']]
    rw [jsSplit_single_eq]
    decide
  simp [HashConverter.toEntityData, List.lookup, fromHashConverter, hsplit]

/-- C1, amended: for every field type and every well-typed representable
value, decoding the encoding of a singleton entity yields the entity back,
in the structured encoding unconditionally and in the flat encoding provided
that, for `string[]` values, the (single-character) separator occurs in no
element and the array is nonempty. -/
theorem c1_round_trip_amended (f : List Char) (fd : FieldDef) (v : EntityValue)
    (hwt : wellTyped fd.type v = true) (hrep : representable v = true) :
    (flatArrOK fd v = true →
      ∃ hd, HashConverter.toHashData [(f, fd)] [(f, v)] = some hd ∧
        HashConverter.toEntityData [(f, fd)] hd = .ok [(f, v)]) ∧
    (∃ jd, JsonConverter.toJsonData [(f, fd)] [(f, v)] = some jd ∧
      JsonConverter.toEntityData [(f, fd)] (some jd) = some [(f, v)]) := by
  constructor
  · intro harr
    obtain ⟨hv, h1, h2⟩ := hashConv_rt fd.type fd v hwt hrep harr
    refine ⟨[(f, hv)], ?_, ?_⟩
    · simp [HashConverter.toHashData, List.lookup, h1]
    · simp [HashConverter.toEntityData, List.lookup, h2]
  · obtain ⟨jv, h1, h2⟩ := jsonConv_rt fd.type v hwt hrep
    have hjnull : jv ≠ .jnull := by
      intro hj
      rw [hj, fromJsonConverter_jnull] at h2
      exact Option.noConfusion h2
    refine ⟨[(f, jv)], ?_, ?_⟩
    · simp [JsonConverter.toJsonData, List.lookup, h1]
    · simp [JsonConverter.toEntityData, List.lookup, hjnull, h2]

/-- C1, witness: the amended law at a concrete number field and value. -/
theorem c1_round_trip_witness :
    (flatArrOK (FieldDef.mk .number none none) (.vnum 5) = true →
      ∃ hd, HashConverter.toHashData [(['n'], FieldDef.mk .number none none)]
          [(['n'], .vnum 5)] = some hd ∧
        HashConverter.toEntityData [(['n'], FieldDef.mk .number none none)] hd =
          .ok [(['n'], .vnum 5)]) ∧
    (∃ jd, JsonConverter.toJsonData [(['n'], FieldDef.mk .number none none)]
        [(['n'], .vnum 5)] = some jd ∧
      JsonConverter.toEntityData [(['n'], FieldDef.mk .number none none)] (some jd) =
        some [(['n'], .vnum 5)]) :=
  c1_round_trip_amended ['n'] (FieldDef.mk .number none none) (.vnum 5)
    (by decide) (by with_unfolding_all decide)

/-- C2, counterexample: the point `{longitude: -122.27, latitude: 37.80}`
does not encode to the string `"-122.27,37.80"`: JS number printing drops
the trailing zero of `37.80`, producing `"-122.27,37.8"`. -/
theorem c2_point_string_counterexample :
    pointToString ((-122.27 : ℚ)) ((37.80 : ℚ)) = pointCodeStr ∧
    pointToString ((-122.27 : ℚ)) ((37.80 : ℚ)) ≠ pointSpecStr := by
  constructor
  · with_unfolding_all decide
  · with_unfolding_all decide

/-- C2, amended: the point encodes to `"-122.27,37.8"` in the string form
of both encodings, and decoding either `"-122.27,37.80"` or `"-122.27,37.8"`
reproduces the `{longitude, latitude}` structure. -/
theorem c2_point_string_amended :
    pointToString ((-122.27 : ℚ)) ((37.80 : ℚ)) = pointCodeStr ∧
    toJsonConverter .point (.vpoint (-122.27) 37.80) = some (.jstr pointCodeStr) ∧
    toHashConverter .point (.vpoint (-122.27) 37.80) (FieldDef.mk .point none none) =
      some (.hstr pointCodeStr) ∧
    stringToPoint pointSpecStr = some ((-122.27 : ℚ), (37.80 : ℚ)) ∧
    stringToPoint pointCodeStr = some ((-122.27 : ℚ), (37.80 : ℚ)) := by
  have hlo : jsParseFloat ("-122.27".toList) = some ((-122.27 : ℚ)) := by
    have h : jsParseFloat ("-122.27".toList) =
        some (-(((122 : ℕ) : ℚ) + ((27 : ℕ) : ℚ) / 10 ^ (2 : ℕ))) := rfl
    rw [h]
    norm_num
  have hla80 : jsParseFloat ("37.80".toList) = some ((37.80 : ℚ)) := by
    have h : jsParseFloat ("37.80".toList) =
        some (((37 : ℕ) : ℚ) + ((80 : ℕ) : ℚ) / 10 ^ (2 : ℕ)) := rfl
    rw [h]
    norm_num
  have hla8 : jsParseFloat ("37.8".toList) = some ((37.80 : ℚ)) := by
    have h : jsParseFloat ("37.8".toList) =
        some (((37 : ℕ) : ℚ) + ((8 : ℕ) : ℚ) / 10 ^ (1 : ℕ)) := rfl
    rw [h]
    norm_num
  refine ⟨by with_unfolding_all decide, by with_unfolding_all decide,
    by with_unfolding_all decide, ?_, ?_⟩
  · have h1 : jsSplit [','] pointSpecStr = ["-122.27".toList, "37.80".toList] := by
      rw [jsSplit_single_eq]
      decide
    simp only [stringToPoint, h1, List.head?_cons, List.getElem?_cons_succ,
      List.getElem?_cons_zero]
    rw [hlo, hla80]
  · have h1 : jsSplit [','] pointCodeStr = ["-122.27".toList, "37.8".toList] := by
      rw [jsSplit_single_eq]
      decide
    simp only [stringToPoint, h1, List.head?_cons, List.getElem?_cons_succ,
      List.getElem?_cons_zero]
    rw [hlo, hla8]

/-- C3: the flat converter ignores the alias. With field `foo` aliased
`bar`, encoding writes the storage key `foo` (key `bar` is absent), decoding
a record keyed by the alias `bar` finds nothing, while the index builder
declares the field under its alias `bar` — contradicting the `Field.alias`
documentation, which says the alias overrides the Redis key name. -/
theorem c3_alias_ignored_by_flat_converter :
    HashConverter.toHashData [(fooName, FieldDef.mk .string (some barName) none)]
      [(fooName, .vstr ['x'])] = some [(fooName, .hstr ['x'])] ∧
    List.lookup barName [(fooName, HashValue.hstr ['x'])] = none ∧
    HashConverter.toEntityData [(fooName, FieldDef.mk .string (some barName) none)]
      [(barName, .hstr ['x'])] = .ok [] ∧
    SchemaBuilder.buildHashSchemaEntry fooName (FieldDef.mk .string (some barName) none) =
      [barName, tokTAG, tokSEPARATOR, ['|']] := by
  refine ⟨by decide, by decide, by decide, by decide⟩

/-- C4, counterexample: decoding a flat record with `aBoolean: "maybe"`
through the part_000 converter raises an error whose message names the value
`maybe` but does not name the field `aBoolean`. -/
theorem c4_boolean_decode_counterexample :
    HashConverter.toEntityData [(aBooleanName, FieldDef.mk .boolean none none)]
      [(aBooleanName, .hstr maybeStr)] = .error (boolErrMsg maybeStr) ∧
    containsSub maybeStr (boolErrMsg maybeStr) = true ∧
    containsSub aBooleanName (boolErrMsg maybeStr) = false := by
  refine ⟨by decide, by decide, by decide⟩

/-- C4, amended: for every stored boolean string other than `"0"`/`"1"`,
decode raises (never silently yielding `false`) with an error naming the
offending raw value; the message of `stringToBoolean` in part_000 does not
name the field, while the older `HashConverter.addBoolean` names both the
field and the value. -/
theorem c4_boolean_decode_amended (s field : List Char) (entityData : EntityData)
    (h0 : s ≠ ['0']) (h1 : s ≠ ['1']) :
    stringToBoolean s = .error (boolErrMsg s) ∧
    containsSub s (boolErrMsg s) = true ∧
    OldHashConverter.addBoolean field entityData s =
      .error (OldHashConverter.oldBoolErrMsg field s) ∧
    containsSub s (OldHashConverter.oldBoolErrMsg field s) = true ∧
    containsSub field (OldHashConverter.oldBoolErrMsg field s) = true := by
  refine ⟨?_, ?_, ?_, ?_, ?_⟩
  · simp [stringToBoolean, h0, h1]
  · have h := containsSub_sandwich s ("Non-boolean value of ".toList ++ [squote])
      (squote :: " read from Redis for boolean field.".toList)
    simpa [boolErrMsg, List.append_assoc] using h
  · simp [OldHashConverter.addBoolean, h0, h1]
  · have h := containsSub_sandwich s ("Non-boolean value of ".toList ++ [squote])
      (squote :: " read from Redis for boolean field ".toList ++ squote :: field ++ [squote])
    simpa [OldHashConverter.oldBoolErrMsg, List.append_assoc] using h
  · have h := containsSub_sandwich field
      ("Non-boolean value of ".toList ++ squote :: s ++ squote ::
        " read from Redis for boolean field ".toList ++ [squote]) [squote]
    simpa [OldHashConverter.oldBoolErrMsg, List.append_assoc] using h

/-- C4, witness: the amended statement at `"maybe"` under field
`aBoolean`. -/
theorem c4_boolean_decode_witness :
    stringToBoolean maybeStr = .error (boolErrMsg maybeStr) ∧
    containsSub maybeStr (boolErrMsg maybeStr) = true ∧
    OldHashConverter.addBoolean aBooleanName [] maybeStr =
      .error (OldHashConverter.oldBoolErrMsg aBooleanName maybeStr) ∧
    containsSub maybeStr (OldHashConverter.oldBoolErrMsg aBooleanName maybeStr) = true ∧
    containsSub aBooleanName (OldHashConverter.oldBoolErrMsg aBooleanName maybeStr) = true :=
  c4_boolean_decode_amended maybeStr aBooleanName [] (by decide) (by decide)

/-- C5: `.where`/`.and`/`.or` combine left-associatively: the accumulated
tree always becomes the left child. The spec example
`where(a).eq(1).or(b).eq(2).and(c).eq(3)` builds
`AND(OR(a=1, b=2), c=3)` and renders as
`(({a}=1 OR {b}=2) AND {c}=3)`, not with AND-before-OR precedence; and in
general each call wraps the entire accumulated tree. -/
theorem c5_where_left_associative :
    searchQuery (applyCalls [(Combiner.cand, eqLeaf ['a'] ['1']),
      (Combiner.cor, eqLeaf ['b'] ['2']), (Combiner.cand, eqLeaf ['c'] ['3'])]) =
      "((\x7ba\x7d=1 OR \x7bb\x7d=2) AND \x7bc\x7d=3)".toList ∧
    applyCalls [(Combiner.cand, eqLeaf ['a'] ['1']), (Combiner.cor, eqLeaf ['b'] ['2']),
      (Combiner.cand, eqLeaf ['c'] ['3'])] =
      some (.wand (.wor (eqLeaf ['a'] ['1']) (eqLeaf ['b'] ['2'])) (eqLeaf ['c'] ['3'])) ∧
    ∀ (calls : List (Combiner × Where)) (c : Combiner) (w : Where),
      applyCalls (calls ++ [(c, w)]) = anyWhereForField c (applyCalls calls) w := by
  refine ⟨by decide, by decide, ?_⟩
  intro calls c w
  simp [applyCalls, List.foldl_append]

/-- C6: in the structured encoding, a stored `null` field value is treated
as absent: whenever decode succeeds, a field that is `null` (or missing) in
the record is absent from the result with no error, and a `null` whole
record decodes to an empty entity. -/
theorem c6_json_null_means_absent :
    (∀ schemaDef : SchemaDef, JsonConverter.toEntityData schemaDef none = some []) ∧
    (∀ (schemaDef : SchemaDef) (jsonData : JsonData) (ed : EntityData) (f : List Char),
      List.lookup f jsonData = some .jnull →
      JsonConverter.toEntityData schemaDef (some jsonData) = some ed →
      List.lookup f ed = none) ∧
    (∀ (f : List Char) (fd : FieldDef),
      JsonConverter.toEntityData [(f, fd)] (some [(f, JsonValue.jnull)]) = some []) := by
  refine ⟨?_, ?_, ?_⟩
  · intro schemaDef
    cases schemaDef <;> rfl
  · intro schemaDef jsonData ed f hnull hdec
    exact jsonDecode_skips schemaDef jsonData ed f hdec (Or.inr hnull)
  · intro f fd
    rw [JsonConverter.toEntityData]
    have hb : (f == f) = true := by simp
    rw [List.lookup, hb]
    dsimp only
    rw [if_pos rfl]
    rfl

/-- C6, witness: the null-skipping conjunct at a concrete schema and
record. -/
theorem c6_json_null_means_absent_witness :
    List.lookup ['a'] ([] : EntityData) = none :=
  c6_json_null_means_absent.2.1 [(['a'], FieldDef.mk .boolean none none)]
    [(['a'], JsonValue.jnull)] [] ['a'] (by decide) (by decide)

/-- C7: for a one-field schema whose field is `string[]`, the structured
index builder emits exactly one declaration: the path carries the `[*]`
element wildcard, the search type is `TAG`, and no `SEPARATOR` option is
emitted (shown both for an arbitrary alias/separator and concretely for
`tags`). -/
theorem c7_json_string_array_declaration (f : List Char) (fd : FieldDef)
    (ht : fd.type = .stringArray) :
    SchemaBuilder.buildJsonSchema [(f, fd)] =
      [dollarDot ++ fd.aliasName.getD f ++ starSuffix, tokAS, fd.aliasName.getD f, tokTAG] ∧
    SchemaBuilder.buildJsonSchema [(tagsName, FieldDef.mk .stringArray none none)] =
      [tagsPath, tokAS, tagsName, tokTAG] ∧
    tokSEPARATOR ∉ SchemaBuilder.buildJsonSchema
      [(tagsName, FieldDef.mk .stringArray none none)] := by
  refine ⟨?_, by decide, by decide⟩
  obtain ⟨t, al, sp⟩ := fd
  simp only at ht
  subst ht
  simp [SchemaBuilder.buildJsonSchema, SchemaBuilder.buildJsonSchemaEntry]

/-- C7, witness: the declaration for the concrete `tags` field. -/
theorem c7_json_string_array_declaration_witness :
    SchemaBuilder.buildJsonSchema [(tagsName, FieldDef.mk .stringArray none none)] =
      [dollarDot ++ (FieldDef.mk FieldType.stringArray none none).aliasName.getD tagsName ++
        starSuffix, tokAS,
        (FieldDef.mk FieldType.stringArray none none).aliasName.getD tagsName, tokTAG] :=
  (c7_json_string_array_declaration tagsName (FieldDef.mk .stringArray none none) rfl).1

/-- C8: unset symmetry in both encodings: a field absent from the entity
data never appears in the encoded record, and a key absent from the stored
record never appears in the decoded entity data. -/
theorem c8_unset_symmetry :
    (∀ (schemaDef : SchemaDef) (entityData : EntityData) (hd : HashData) (f : List Char),
      HashConverter.toHashData schemaDef entityData = some hd →
      List.lookup f entityData = none → List.lookup f hd = none) ∧
    (∀ (schemaDef : SchemaDef) (hashData : HashData) (ed : EntityData) (f : List Char),
      HashConverter.toEntityData schemaDef hashData = .ok ed →
      List.lookup f hashData = none → List.lookup f ed = none) ∧
    (∀ (schemaDef : SchemaDef) (entityData : EntityData) (jd : JsonData) (f : List Char),
      JsonConverter.toJsonData schemaDef entityData = some jd →
      List.lookup f entityData = none → List.lookup f jd = none) ∧
    (∀ (schemaDef : SchemaDef) (jsonData : JsonData) (ed : EntityData) (f : List Char),
      JsonConverter.toEntityData schemaDef (some jsonData) = some ed →
      List.lookup f jsonData = none → List.lookup f ed = none) := by
  refine ⟨?_, ?_, ?_, ?_⟩
  · intro sd entityData hd f henc habs
    exact toHashData_absent sd entityData hd f henc habs
  · intro sd hashData ed f hdec habs
    exact hashDecode_absent sd hashData ed f hdec habs
  · intro sd entityData jd f henc habs
    exact toJsonData_absent sd entityData jd f henc habs
  · intro sd jsonData ed f hdec habs
    exact jsonDecode_skips sd jsonData ed f hdec (Or.inl habs)

/-- C8, witness: all four directions at a concrete schema, with field `b`
unset. -/
theorem c8_unset_symmetry_witness :
    List.lookup ['b'] [(['a'], HashValue.hstr ['x'])] = none ∧
    List.lookup ['b'] [(['a'], EntityValue.vstr ['x'])] = none ∧
    List.lookup ['b'] [(['a'], JsonValue.jstr ['x'])] = none ∧
    List.lookup ['b'] [(['a'], EntityValue.vstr ['x'])] = none := by
  refine ⟨?_, ?_, ?_, ?_⟩
  · exact c8_unset_symmetry.1 [(['a'], FieldDef.mk .string none none)]
      [(['a'], .vstr ['x'])] [(['a'], .hstr ['x'])] ['b'] (by decide) (by decide)
  · exact c8_unset_symmetry.2.1 [(['a'], FieldDef.mk .string none none)]
      [(['a'], .hstr ['x'])] [(['a'], .vstr ['x'])] ['b'] (by decide) (by decide)
  · exact c8_unset_symmetry.2.2.1 [(['a'], FieldDef.mk .string none none)]
      [(['a'], .vstr ['x'])] [(['a'], .jstr ['x'])] ['b'] (by decide) (by decide)
  · exact c8_unset_symmetry.2.2.2 [(['a'], FieldDef.mk .string none none)]
      [(['a'], .jstr ['x'])] [(['a'], .vstr ['x'])] ['b'] (by decide) (by decide)

/-- C9: assigning `undefined` through the generated property setter always
throws, with a message directing the caller to use `null` instead, while
assigning `null` removes the field (keyed by its alias) from the entity
data. -/
theorem c9_undefined_throws_null_unsets (env : JsEnv) (field entityName : List Char)
    (fieldDef : FieldDef) (entityData : EntityData) :
    propertySet env field entityName fieldDef entityData .undef =
      .error (undefinedSetMsg field entityName) ∧
    containsSub useNullStr (undefinedSetMsg field entityName) = true ∧
    propertySet env field entityName fieldDef entityData .vnull =
      .ok (eraseKey (fieldDef.aliasName.getD field) entityData) ∧
    List.lookup (fieldDef.aliasName.getD field)
      (eraseKey (fieldDef.aliasName.getD field) entityData) = none := by
  refine ⟨rfl, ?_, rfl, lookup_eraseKey _ _⟩
  have hsplitmsg : (" cannot be set to undefined. Use null instead.".toList : List Char) =
      " cannot be set to undefined. ".toList ++ useNullStr := by decide
  have h := containsSub_sandwich useNullStr
    ("Property ".toList ++ squote :: field ++ squote :: " on entity of type ".toList ++
      squote :: entityName ++ squote :: " cannot be set to undefined. ".toList) []
  simpa [undefinedSetMsg, hsplitmsg, List.append_assoc] using h

/-- C10: flat-encoding decode of number and date fields accepts every
string whose leading characters parse as a number — optional whitespace,
then an optional sign, then a digit run with an optional fraction, so
signed, fractional, zero-padded and whitespace-led prefixes included —
returning the parsed numeric prefix without error; a date field accepts
any string with a parseable integer prefix; and a string is rejected
exactly when it has no numeric (respectively integer) prefix at all. -/
theorem c10_numeric_prefix_accepted :
    (∀ (ws sgn : List Char) (neg : Bool) (intDs : List ℕ) (rest : List Char),
      (∀ c ∈ ws, isSpaceChar c = true) →
      (sgn = [] ∧ neg = false ∨ sgn = ['+'] ∧ neg = false ∨ sgn = ['-'] ∧ neg = true) →
      (∀ d ∈ intDs, d < 10) → intDs ≠ [] →
      noNumContinuation rest = true →
      stringToNumber (ws ++ (sgn ++ (intDs.map digitChar ++ rest))) =
        .ok (if neg then -(digitsVal intDs : ℚ) else (digitsVal intDs : ℚ))) ∧
    (∀ (ws sgn : List Char) (neg : Bool) (intDs fracDs : List ℕ) (rest : List Char),
      (∀ c ∈ ws, isSpaceChar c = true) →
      (sgn = [] ∧ neg = false ∨ sgn = ['+'] ∧ neg = false ∨ sgn = ['-'] ∧ neg = true) →
      (∀ d ∈ intDs, d < 10) → (∀ d ∈ fracDs, d < 10) →
      ¬(intDs = [] ∧ fracDs = []) →
      headIsDigit rest = false →
      stringToNumber (ws ++ (sgn ++ (intDs.map digitChar ++
          ('.' :: (fracDs.map digitChar ++ rest))))) =
        .ok (if neg then
            -((digitsVal intDs : ℚ) + (digitsVal fracDs : ℚ) / 10 ^ fracDs.length)
          else (digitsVal intDs : ℚ) + (digitsVal fracDs : ℚ) / 10 ^ fracDs.length)) ∧
    (∀ (ws sgn : List Char) (neg : Bool) (intDs : List ℕ) (rest : List Char),
      (∀ c ∈ ws, isSpaceChar c = true) →
      (sgn = [] ∧ neg = false ∨ sgn = ['+'] ∧ neg = false ∨ sgn = ['-'] ∧ neg = true) →
      (∀ d ∈ intDs, d < 10) → intDs ≠ [] →
      headIsDigit rest = false →
      stringToDate (ws ++ (sgn ++ (intDs.map digitChar ++ rest))) =
        .ok (if neg then -(digitsVal intDs : ℤ) else (digitsVal intDs : ℤ))) ∧
    (∀ s : List Char,
      (stringToNumber s = .error (numberErrMsg s) ↔ startsNumeric s = false) ∧
      (startsNumeric s = true → ∃ q, stringToNumber s = .ok q)) ∧
    (∀ s : List Char,
      (stringToDate s = .error (dateErrMsg s) ↔ startsInteger s = false) ∧
      (startsInteger s = true → ∃ t, stringToDate s = .ok t)) := by
  refine ⟨?_, ?_, ?_, stringToNumber_cases, stringToDate_cases⟩
  · intro ws sgn neg intDs rest hws hsgn hint hne hr
    have h := jsParseFloat_lead_int ws sgn neg intDs rest hws hsgn hint hne hr
    unfold stringToNumber
    rw [h]
  · intro ws sgn neg intDs fracDs rest hws hsgn hint hfrac hne hrd
    have h := jsParseFloat_lead_frac ws sgn neg intDs fracDs rest hws hsgn hint hfrac hne hrd
    unfold stringToNumber
    rw [h]
  · intro ws sgn neg intDs rest hws hsgn hint hne hrd
    have h := jsParseInt_lead ws sgn neg intDs rest hws hsgn hint hne hrd
    unfold stringToDate
    rw [h]

/-- C10, witness: `"42abc"`, whitespace-led `" 42abc"`, signed `"-5abc"`,
zero-padded `"007abc"` and fractional `"3.14xyz"` all decode as numbers to
their numeric prefixes; `"3.14xyz"` and `"-5abc"` decode as dates to their
integer prefixes; `"abc"` and `".5"` are rejected, with the source error
messages, as they carry no numeric (respectively integer) prefix; and
`".5xyz"`, which has a numeric prefix, is accepted. -/
theorem c10_numeric_prefix_accepted_witness :
    stringToNumber ("42abc".toList) = .ok 42 ∧
    stringToNumber (" 42abc".toList) = .ok 42 ∧
    stringToNumber ("-5abc".toList) = .ok (-5) ∧
    stringToNumber ("007abc".toList) = .ok 7 ∧
    stringToNumber ("3.14xyz".toList) = .ok (3 + 14 / 10 ^ 2) ∧
    stringToDate ("3.14xyz".toList) = .ok 3 ∧
    stringToDate ("-5abc".toList) = .ok (-5) ∧
    stringToNumber ("abc".toList) = .error (numberErrMsg ("abc".toList)) ∧
    stringToDate (".5".toList) = .error (dateErrMsg (".5".toList)) ∧
    (∃ q, stringToNumber (".5xyz".toList) = .ok q) := by
  refine ⟨?_, ?_, ?_, ?_, ?_, ?_, ?_, ?_, ?_, ?_⟩
  · have h := c10_numeric_prefix_accepted.1 [] [] false [4, 2] ("abc".toList)
      (by decide) (by decide) (by decide) (by decide) (by decide)
    rw [show ([] ++ ([] ++ (List.map digitChar [4, 2] ++ "abc".toList)) : List Char) =
      "42abc".toList from by decide] at h
    simpa [digitsVal, List.foldl_cons, List.foldl_nil] using h
  · have h := c10_numeric_prefix_accepted.1 [' '] [] false [4, 2] ("abc".toList)
      (by decide) (by decide) (by decide) (by decide) (by decide)
    rw [show ([' '] ++ ([] ++ (List.map digitChar [4, 2] ++ "abc".toList)) : List Char) =
      " 42abc".toList from by decide] at h
    simpa [digitsVal, List.foldl_cons, List.foldl_nil] using h
  · have h := c10_numeric_prefix_accepted.1 [] ['-'] true [5] ("abc".toList)
      (by decide) (by decide) (by decide) (by decide) (by decide)
    rw [show ([] ++ (['-'] ++ (List.map digitChar [5] ++ "abc".toList)) : List Char) =
      "-5abc".toList from by decide] at h
    simpa [digitsVal, List.foldl_cons, List.foldl_nil] using h
  · have h := c10_numeric_prefix_accepted.1 [] [] false [0, 0, 7] ("abc".toList)
      (by decide) (by decide) (by decide) (by decide) (by decide)
    rw [show ([] ++ ([] ++ (List.map digitChar [0, 0, 7] ++ "abc".toList)) : List Char) =
      "007abc".toList from by decide] at h
    simpa [digitsVal, List.foldl_cons, List.foldl_nil] using h
  · have h := c10_numeric_prefix_accepted.2.1 [] [] false [3] [1, 4] ("xyz".toList)
      (by decide) (by decide) (by decide) (by decide) (by decide) (by decide)
    rw [show ([] ++ ([] ++ (List.map digitChar [3] ++
        ('.' :: (List.map digitChar [1, 4] ++ "xyz".toList)))) : List Char) =
      "3.14xyz".toList from by decide] at h
    simpa [digitsVal, List.foldl_cons, List.foldl_nil] using h
  · have h := c10_numeric_prefix_accepted.2.2.1 [] [] false [3] (".14xyz".toList)
      (by decide) (by decide) (by decide) (by decide) (by decide)
    rw [show ([] ++ ([] ++ (List.map digitChar [3] ++ ".14xyz".toList)) : List Char) =
      "3.14xyz".toList from by decide] at h
    simpa [digitsVal, List.foldl_cons, List.foldl_nil] using h
  · have h := c10_numeric_prefix_accepted.2.2.1 [] ['-'] true [5] ("abc".toList)
      (by decide) (by decide) (by decide) (by decide) (by decide)
    rw [show ([] ++ (['-'] ++ (List.map digitChar [5] ++ "abc".toList)) : List Char) =
      "-5abc".toList from by decide] at h
    simpa [digitsVal, List.foldl_cons, List.foldl_nil] using h
  · exact (c10_numeric_prefix_accepted.2.2.2.1 ("abc".toList)).1.mpr (by decide)
  · exact (c10_numeric_prefix_accepted.2.2.2.2 (".5".toList)).1.mpr (by decide)
  · exact (c10_numeric_prefix_accepted.2.2.2.1 (".5xyz".toList)).2 (by decide)

end RedisOm
